import Mathlib

/-!
Layering scheduler of the QIR tracer

A shallow embedding of `src/QirRuntime/lib/Tracer/tracer.hpp` and `tracer.cpp`
(class `CTracer`) together with the properties proved about it.

Conventions of the embedding.

* `OpId`, `Time`, `Duration` are `int32_t` in the source and `Int` here.  The three sums of
  times the source computes (`CreateNewLayer`, the fit test of
  `FindLayerToInsertOperationInto`, `UpdateQubitState`) are 32-bit sums: they are wrapped to
  the range of `int32_t` by `wrap32`.
* `LayerId` is `size_t` and the constant `INVALID` is `numeric_limits<size_t>::max()`.  No index
  of a `std::vector<Layer>` can equal that value, so a `LayerId` is an `Option Nat` whose `none`
  is `INVALID`.  The source relies on `INVALID` being the greatest `size_t` when it folds with
  `std::max`; `LayerId.max` keeps that ordering.
* A `Qubit` handle is the index that `AllocateQubit` cast to a pointer: a `Nat`.
* A failed `assert` and an out-of-range `operator[]` make the operation return `none`.
* `std::unordered_map<OpId, int32_t>` is an association list; `insert` followed by the
  increment of an existing entry is `Layer.recordOp`.  The counts are `int32_t` in the source
  and are not wrapped here: a count leaves the range of `int32_t` only after 2147483647
  increments of one identifier in one layer.
-/

namespace Tracer

abbrev OpId := Int
abbrev Time := Int
abbrev Duration := Int
abbrev Qubit := Nat

/-- The value of a sum of two `int32_t`: the integer wrapped into the range
`-2147483648 .. 2147483647` (two's-complement wrap-around, the result of `+` on `int32_t` in
the compiled runtime). -/
def wrap32 (x : Int) : Int := (x + 2147483648) % 4294967296 - 2147483648

/-- The integer `x` is a value of `int32_t`: a sum with this value does not overflow. -/
def InRange32 (x : Int) : Prop := -2147483648 ≤ x ∧ x < 2147483648

/-- Layer identifier: `some i` is the index `i`, `none` is the sentinel `INVALID`. -/
abbrev LayerId := Option Nat

/-- The sentinel `INVALID` of tracer.hpp. -/
abbrev INVALID : LayerId := none

/-- The function `std::max` on `LayerId`, where `INVALID` is the greatest value. -/
def LayerId.max : LayerId → LayerId → LayerId
  | some a, some b => some (Max.max a b)
  | _, _ => INVALID

/-- The struct `Layer`.  The field `name` is the one `InjectGlobalBarrier` assigns; its
declaration is not part of this snapshot of tracer.hpp. -/
structure Layer where
  duration : Duration
  startTime : Time
  operations : List (OpId × Int) := []
  name : Option String := none
  deriving DecidableEq, Repr

/-- The struct `QubitState` with its default member initialisers. -/
structure QubitState where
  layer : LayerId := INVALID
  lastUsedTime : Time := 0
  pendingZeroOps : List OpId := []
  deriving DecidableEq, Repr

/-- The data members of `CTracer`.  The member `globalBarrier` is used by tracer.cpp; its
declaration is not part of this snapshot of tracer.hpp. -/
structure CTracer where
  qubits : List QubitState := []
  preferredLayerDuration : Int := 0
  metricsByLayer : List Layer := []
  globalBarrier : LayerId := INVALID
  deriving DecidableEq, Repr

/-- The body of `AddOperationToLayer` on one map: `operations.insert({id, 1})`, and the count
of the entry already present is incremented when nothing was inserted. -/
def Layer.recordOp : List (OpId × Int) → OpId → List (OpId × Int)
  | [], id => [(id, 1)]
  | (k, c) :: rest, id => if k = id then (k, c + 1) :: rest else (k, c) :: Layer.recordOp rest id

/-- Occurrence count of `id` in a map of operations; an absent entry counts 0. -/
def Layer.countOf : List (OpId × Int) → OpId → Int
  | [], _ => 0
  | (k, c) :: rest, id => if k = id then c else Layer.countOf rest id

namespace CTracer

/-- Modelled from the spec: the initial value of the undeclared member `globalBarrier` is
"none" (no barrier is active in a tracer made by `CreateTracer`); the other members take the
default initialisers of tracer.hpp. -/
def fresh : CTracer := { qubits := [], preferredLayerDuration := 0, metricsByLayer := [], globalBarrier := INVALID }

/-- The method `SetPreferredLayerDuration`. -/
def SetPreferredLayerDuration (s : CTracer) (dur : Int) : CTracer :=
  { s with preferredLayerDuration := dur }

/-- The method `UseQubit`: `none` when the assertion `qubitIndex < qubits.size()` fails. -/
def UseQubit (s : CTracer) (q : Qubit) : Option QubitState :=
  s.qubits[q]?

/-- The method `AllocateQubit`: returns the new state and the handle. -/
def AllocateQubit (s : CTracer) : CTracer × Qubit :=
  ({ s with qubits := s.qubits ++ [{}] }, s.qubits.length)

/-- The method `CreateNewLayer`: returns the new state and the index of the created layer.
The start time `lastLayer.startTime + lastLayer.duration` is a sum of `int32_t`. -/
def CreateNewLayer (s : CTracer) (opDuration : Duration) : CTracer × Nat :=
  let layerStartTime : Time :=
    match s.metricsByLayer.getLast? with
    | some lastLayer => wrap32 (lastLayer.startTime + lastLayer.duration)
    | none => 0
  ({ s with metricsByLayer :=
        s.metricsByLayer ++ [{ duration := max s.preferredLayerDuration opDuration,
                               startTime := layerStartTime }] },
   s.metricsByLayer.length)

/-- The method `FindLayerToInsertOperationInto`.  The outer `Option` is the failure of
`UseQubit` or of `metricsByLayer[qstate.layer]`; the inner value may be `INVALID`.  Both sides
of the fit test are sums of `int32_t`. -/
def FindLayerToInsertOperationInto (s : CTracer) (q : Qubit) (opDuration : Duration) :
    Option LayerId :=
  match s.UseQubit q with
  | none => none
  | some qstate =>
    let candidate : Option LayerId :=
      match qstate.layer with
      | some L =>
        match s.metricsByLayer[L]? with
        | none => none
        | some lastUsedIn =>
          if wrap32 (qstate.lastUsedTime + opDuration) ≤
              wrap32 (lastUsedIn.startTime + lastUsedIn.duration) then
            some (some L)
          else if opDuration ≤ s.preferredLayerDuration ∧ L + 1 < s.metricsByLayer.length then
            some (some (L + 1))
          else some INVALID
      | none =>
        if opDuration ≤ s.preferredLayerDuration ∧ s.metricsByLayer ≠ [] then some (some 0)
        else some INVALID
    match candidate with
    | none => none
    | some none => some INVALID
    | some (some layerToInsertInto) =>
      match s.globalBarrier with
      | none => some (some layerToInsertInto)
      | some globalBarrier =>
        if globalBarrier + 1 = s.metricsByLayer.length then some INVALID
        else some (some (max layerToInsertInto (globalBarrier + 1)))

/-- The method `AddOperationToLayer`: `none` when `layer < metricsByLayer.size()` fails. -/
def AddOperationToLayer (s : CTracer) (id : OpId) (layer : Nat) : Option CTracer :=
  match s.metricsByLayer[layer]? with
  | none => none
  | some L =>
    let recorded : Layer := { L with operations := Layer.recordOp L.operations id }
    some { s with metricsByLayer := s.metricsByLayer.set layer recorded }

/-- The loop of `UpdateQubitState` over `qstate.pendingZeroOps`. -/
def addPendingOps (s : CTracer) (layer : Nat) : List OpId → Option CTracer
  | [] => some s
  | idPending :: rest =>
    match s.AddOperationToLayer idPending layer with
    | none => none
    | some s1 => addPendingOps s1 layer rest

/-- The method `UpdateQubitState`.  The new `lastUsedTime` is a sum of `int32_t`. -/
def UpdateQubitState (s : CTracer) (q : Qubit) (layer : Nat) (opDuration : Duration) :
    Option CTracer :=
  match s.UseQubit q with
  | none => none
  | some qstate =>
    match s.addPendingOps layer qstate.pendingZeroOps with
    | none => none
    | some s1 =>
      match s1.metricsByLayer[layer]? with
      | none => none
      | some L =>
        let updated : QubitState :=
          { layer := some layer,
            lastUsedTime := wrap32 (max L.startTime qstate.lastUsedTime + opDuration),
            pendingZeroOps := [] }
        some { s1 with qubits := s1.qubits.set q updated }

/-- The condition under which `TraceSingleQubitOp` defers an operation:
`opDuration == 0 && (qstate.layer == INVALID ||
(globalBarrier != INVALID && qstate.layer < globalBarrier))`. -/
def defers (s : CTracer) (qstate : QubitState) (opDuration : Duration) : Bool :=
  opDuration = 0 &&
    (match qstate.layer with
     | none => true
     | some L =>
       match s.globalBarrier with
       | none => false
       | some globalBarrier => decide (L < globalBarrier))

/-- The tail shared by both trace methods: create a layer when the search gave `INVALID`,
add the operation to the layer, and return the state and the layer. -/
def placeOperation (s : CTracer) (id : OpId) (opDuration : Duration) (found : LayerId) :
    Option (CTracer × Nat) :=
  let created : CTracer × Nat :=
    match found with
    | none => s.CreateNewLayer opDuration
    | some l => (s, l)
  match created.1.AddOperationToLayer id created.2 with
  | none => none
  | some s2 => some (s2, created.2)

/-- The method `TraceSingleQubitOp`. -/
def TraceSingleQubitOp (s : CTracer) (id : OpId) (opDuration : Duration) (target : Qubit) :
    Option CTracer :=
  match s.UseQubit target with
  | none => none
  | some qstate =>
    if s.defers qstate opDuration then
      let deferred : QubitState := { qstate with pendingZeroOps := qstate.pendingZeroOps ++ [id] }
      some { s with qubits := s.qubits.set target deferred }
    else
      match s.FindLayerToInsertOperationInto target opDuration with
      | none => none
      | some layerToInsertInto =>
        match s.placeOperation id opDuration layerToInsertInto with
        | none => none
        | some (s2, layer) => s2.UpdateQubitState target layer opDuration

/-- The two search loops of `TraceMultiQubitOp`:
`for (...; i < n && layerToInsertInto != INVALID; i++)
   layerToInsertInto = max(layerToInsertInto, FindLayerToInsertOperationInto(group[i], d))`. -/
def findLayerLoop (s : CTracer) (opDuration : Duration) : List Qubit → LayerId → Option LayerId
  | [], layerToInsertInto => some layerToInsertInto
  | _ :: _, none => some INVALID
  | q :: rest, some l =>
    match s.FindLayerToInsertOperationInto q opDuration with
    | none => none
    | some found => findLayerLoop s opDuration rest (LayerId.max (some l) found)

/-- The two update loops of `TraceMultiQubitOp`:
`for (i = 0; i < n; i++) UpdateQubitState(group[i], layerToInsertInto, opDuration)`. -/
def updateLoop (s : CTracer) (layer : Nat) (opDuration : Duration) : List Qubit → Option CTracer
  | [] => some s
  | q :: rest =>
    match s.UpdateQubitState q layer opDuration with
    | none => none
    | some s1 => updateLoop s1 layer opDuration rest

/-- The method `TraceMultiQubitOp`; the arrays `firstGroup` and `secondGroup` with their lengths
are lists.  The result is `none` when `assert(nSecondGroup > 0)` fails. -/
def TraceMultiQubitOp (s : CTracer) (id : OpId) (opDuration : Duration)
    (firstGroup secondGroup : List Qubit) : Option CTracer :=
  match secondGroup with
  | [] => none
  | q0 :: secondRest =>
    if firstGroup = [] ∧ secondRest = [] then s.TraceSingleQubitOp id opDuration q0
    else
      match s.FindLayerToInsertOperationInto q0 opDuration with
      | none => none
      | some l0 =>
        match s.findLayerLoop opDuration secondRest l0 with
        | none => none
        | some l1 =>
          match s.findLayerLoop opDuration firstGroup l1 with
          | none => none
          | some layerToInsertInto =>
            match s.placeOperation id opDuration layerToInsertInto with
            | none => none
            | some (s2, layer) =>
              match s2.updateLoop layer opDuration firstGroup with
              | none => none
              | some s3 => s3.updateLoop layer opDuration (q0 :: secondRest)

/-- The method `InjectGlobalBarrier`. -/
def InjectGlobalBarrier (s : CTracer) (name : String) (duration : Duration) : Option CTracer :=
  let created := s.CreateNewLayer duration
  match created.1.metricsByLayer[created.2]? with
  | none => none
  | some L =>
    let named : Layer := { L with name := some name }
    some { created.1 with
      metricsByLayer := created.1.metricsByLayer.set created.2 named,
      globalBarrier := some created.2 }

end CTracer

/-- One call of the public interface of the tracer. -/
inductive Call where
  | allocate
  | single (id : OpId) (duration : Duration) (target : Qubit)
  | multi (id : OpId) (duration : Duration) (controls targets : List Qubit)
  | barrier (name : String) (duration : Duration)
  deriving DecidableEq, Repr

/-- The duration argument of a call (0 for `allocate`). -/
def Call.duration : Call → Duration
  | .allocate => 0
  | .single _ d _ => d
  | .multi _ d _ _ => d
  | .barrier _ d => d

/-- A trace call is `TraceSingleQubitOp` or `TraceMultiQubitOp`. -/
def Call.isTrace : Call → Bool
  | .single _ _ _ => true
  | .multi _ _ _ _ => true
  | _ => false

/-- The resources a call names. -/
def Call.resources : Call → List Qubit
  | .single _ _ q => [q]
  | .multi _ _ controls targets => controls ++ targets
  | _ => []

/-- Effect of one call on the tracer; `none` when an assertion of the source fails. -/
def CTracer.step (s : CTracer) : Call → Option CTracer
  | .allocate => some s.AllocateQubit.1
  | .single id d q => s.TraceSingleQubitOp id d q
  | .multi id d controls targets => s.TraceMultiQubitOp id d controls targets
  | .barrier name d => s.InjectGlobalBarrier name d

/-- Effect of a sequence of calls, in order. -/
def CTracer.run (s : CTracer) : List Call → Option CTracer
  | [] => some s
  | c :: cs =>
    match s.step c with
    | none => none
    | some s1 => CTracer.run s1 cs

/-- A fresh tracer whose preferred layer duration has been configured to `p`. -/
def CTracer.init (p : Int) : CTracer := CTracer.fresh.SetPreferredLayerDuration p

/-! ## Derived quantities used in the statements -/

/-- Sum over all resources of the length of the pending list. -/
def pendingTotal (qs : List QubitState) : Int :=
  (qs.map (fun q => (q.pendingZeroOps.length : Int))).sum

/-- Layers after the operations `ids` are recorded, in order, into layer `l`. -/
def recordMany (ls : List Layer) (l : Nat) (ids : List OpId) : List Layer :=
  match ls[l]? with
  | none => ls
  | some L => ls.set l { L with operations := ids.foldl Layer.recordOp L.operations }

/-- The pair (duration, startTime) of every layer, in order. -/
def shape (ls : List Layer) : List (Duration × Time) := ls.map (fun L => (L.duration, L.startTime))

/-- Start time `CreateNewLayer` gives to the next layer of a table. -/
def nextStart (ls : List Layer) : Time :=
  match ls.getLast? with
  | some lastLayer => wrap32 (lastLayer.startTime + lastLayer.duration)
  | none => 0

/-- The layer `CreateNewLayer` appends. -/
def newLayer (s : CTracer) (opDuration : Duration) : Layer :=
  { duration := max s.preferredLayerDuration opDuration, startTime := nextStart s.metricsByLayer }

/-- The layer table an operation is recorded into: the table extended with a new layer when
the search gave `INVALID`, the table itself otherwise. -/
def baseLayers (s : CTracer) (opDuration : Duration) : LayerId → List Layer
  | none => s.metricsByLayer ++ [newLayer s opDuration]
  | some _ => s.metricsByLayer

/-- The layer an operation is recorded into: the new layer when the search gave `INVALID`,
the layer found otherwise. -/
def placedIndex (s : CTracer) : LayerId → Nat
  | none => s.metricsByLayer.length
  | some l => l

/-- State `s'` arises from `s` by committing the resources `qs` to layer `l`: only layer `l`
gains operations (the flushed pending ones), the resources in `qs` end in layer `l` with an
empty pending list, and nothing else changes. -/
structure Committed (l : Nat) (qs : List Qubit) (s s' : CTracer) : Prop where
  pref : s'.preferredLayerDuration = s.preferredLayerDuration
  barrier : s'.globalBarrier = s.globalBarrier
  layers : ∃ ids, s'.metricsByLayer = recordMany s.metricsByLayer l ids ∧
    (ids.length : Int) = pendingTotal s.qubits - pendingTotal s'.qubits
  qlen : s'.qubits.length = s.qubits.length
  others : ∀ q, q ∉ qs → s'.qubits[q]? = s.qubits[q]?
  members : ∀ q, q ∈ qs → ∃ t, s'.qubits[q]? =
    some { layer := some l, lastUsedTime := t, pendingZeroOps := [] }

/-- Summary of a placement: state `s'` arises from `s` when the operation `id` is recorded
into the layer `placedIndex s found` of `baseLayers s d found` and the resources `qs` are
committed to that layer. -/
structure Placed (id : OpId) (d : Duration) (found : LayerId) (qs : List Qubit)
    (s s' : CTracer) : Prop where
  pref : s'.preferredLayerDuration = s.preferredLayerDuration
  barrier : s'.globalBarrier = s.globalBarrier
  inRange : placedIndex s found < (baseLayers s d found).length
  layers : ∃ ids, s'.metricsByLayer =
      recordMany (baseLayers s d found) (placedIndex s found) (id :: ids) ∧
    (ids.length : Int) = pendingTotal s.qubits - pendingTotal s'.qubits
  qlen : s'.qubits.length = s.qubits.length
  others : ∀ q, q ∉ qs → s'.qubits[q]? = s.qubits[q]?
  members : ∀ q, q ∈ qs → ∃ t, s'.qubits[q]? =
    some { layer := some (placedIndex s found), lastUsedTime := t, pendingZeroOps := [] }

/-- The value the search loops of `TraceMultiQubitOp` compute over the resources `qs`:
`INVALID` when the search gives `INVALID` for some resource, the greatest of the layers found
otherwise. -/
def MultiFound (s : CTracer) (d : Duration) (qs : List Qubit) : LayerId → Prop
  | none => ∃ q, q ∈ qs ∧ s.FindLayerToInsertOperationInto q d = some INVALID
  | some M =>
    (∀ q, q ∈ qs → ∃ l, s.FindLayerToInsertOperationInto q d = some (some l) ∧ l ≤ M) ∧
      ∃ q, q ∈ qs ∧ s.FindLayerToInsertOperationInto q d = some (some M)

/-- Well-formed state: every layer index stored in the state is an index of the table. -/
structure WF (s : CTracer) : Prop where
  qubitLayer : ∀ (q : Qubit) (qs : QubitState) (L : Nat), s.qubits[q]? = some qs →
    qs.layer = some L → L < s.metricsByLayer.length
  barrierLayer : ∀ b, s.globalBarrier = some b → b < s.metricsByLayer.length

/-- The operation identifier of a trace call (0 for the other calls). -/
def Call.opId : Call → OpId
  | .single id _ _ => id
  | .multi id _ _ _ => id
  | _ => 0

/-- A trace call is deferred in state `s`: it reaches `TraceSingleQubitOp` (directly, or from
`TraceMultiQubitOp` with no control and one target) and the deferral condition holds. -/
def Call.deferredOn (s : CTracer) : Call → Bool
  | .single _ d q =>
    match s.qubits[q]? with
    | some qs => s.defers qs d
    | none => false
  | .multi _ d [] [q] =>
    match s.qubits[q]? with
    | some qs => s.defers qs d
    | none => false
  | _ => false

/-- The preconditions of a call: every handle was returned by `AllocateQubit` and the target
group is not empty. -/
def Call.Valid (s : CTracer) : Call → Prop
  | .single _ _ q => q < s.qubits.length
  | .multi _ _ controls targets =>
    targets ≠ [] ∧ ∀ q, q ∈ controls ++ targets → q < s.qubits.length
  | _ => True

/-- Occurrence count of `x` in layer `i` of a table; 0 when the layer does not exist. -/
def layerCount (ls : List Layer) (i : Nat) (x : OpId) : Int :=
  match ls[i]? with
  | some L => Layer.countOf L.operations x
  | none => 0

/-- Start times are chained along a list of (duration, startTime) pairs: the first start time
is 0 and each next one is the previous start time plus the previous duration. -/
def Chained (sh : List (Duration × Time)) : Prop :=
  (∀ x, sh[0]? = some x → x.2 = 0) ∧
    ∀ (i : Nat) (x y : Duration × Time), sh[i]? = some x → sh[i + 1]? = some y →
      y.2 = x.2 + x.1

/-- Start times as `CreateNewLayer` computes them along a list of (duration, startTime) pairs:
the first start time is 0 and each next one is the 32-bit sum of the previous start time and
the previous duration. -/
def ChainedWrap (sh : List (Duration × Time)) : Prop :=
  (∀ x, sh[0]? = some x → x.2 = 0) ∧
    ∀ (i : Nat) (x y : Duration × Time), sh[i]? = some x → sh[i + 1]? = some y →
      y.2 = wrap32 (x.2 + x.1)

/-- The calls of a run all have a non-negative duration. -/
def NonNegDurations (cs : List Call) : Prop := ∀ c, c ∈ cs → 0 ≤ c.duration

/-- Calls of the scenario with two zero-width layers: preferred layer duration 0, three
resources, a zero-duration operation on two of them, then a single operation of duration 5. -/
def zeroWidthCalls : List Call :=
  [.allocate, .allocate, .allocate, .multi 1 0 [0] [1], .single 2 5 2]

/-- State after `zeroWidthCalls` on a fresh tracer with preferred layer duration 0. -/
def zeroWidthState : CTracer :=
  { qubits := [{ layer := some 0, lastUsedTime := 0, pendingZeroOps := [] },
               { layer := some 0, lastUsedTime := 0, pendingZeroOps := [] },
               { layer := some 1, lastUsedTime := 5, pendingZeroOps := [] }],
    preferredLayerDuration := 0,
    metricsByLayer := [{ duration := 0, startTime := 0, operations := [(1, 1)] },
                       { duration := 5, startTime := 0, operations := [(2, 1)] }],
    globalBarrier := INVALID }

/-- Calls of the scenario of the spec with preferred layer duration 10. -/
def threeOpsCalls : List Call :=
  [.allocate, .allocate, .single 1 3 0, .single 2 4 0, .single 3 8 0]

/-- State after `threeOpsCalls` on a fresh tracer with preferred layer duration 10. -/
def threeOpsState : CTracer :=
  { qubits := [{ layer := some 1, lastUsedTime := 18, pendingZeroOps := [] },
               { layer := INVALID, lastUsedTime := 0, pendingZeroOps := [] }],
    preferredLayerDuration := 10,
    metricsByLayer := [{ duration := 10, startTime := 0, operations := [(1, 1), (2, 1)] },
                       { duration := 10, startTime := 10, operations := [(3, 1)] }],
    globalBarrier := INVALID }

/-- Calls of the barrier scenario of the spec: one layer, then a barrier of duration 2. -/
def barrierCalls : List Call :=
  [.allocate, .single 1 1 0, .barrier "sync" 2]

/-- State after `barrierCalls` on a fresh tracer with preferred layer duration 0. -/
def barrierState : CTracer :=
  { qubits := [{ layer := some 0, lastUsedTime := 1, pendingZeroOps := [] }],
    preferredLayerDuration := 0,
    metricsByLayer := [{ duration := 1, startTime := 0, operations := [(1, 1)] },
                       { duration := 2, startTime := 1, operations := [], name := some "sync" }],
    globalBarrier := some 1 }

/-- The invariant of the pending lists: a resource with pending operations is unused, or a
global barrier is active and the layer of the resource is before the barrier. -/
def PendingBehind (s : CTracer) : Prop :=
  ∀ (q : Qubit) (qs : QubitState), s.qubits[q]? = some qs → qs.pendingZeroOps ≠ [] →
    qs.layer = INVALID ∨
      ∃ L b, qs.layer = some L ∧ s.globalBarrier = some b ∧ L < b

/-- Calls of a scenario with a deferred operation behind a barrier. -/
def pendingCalls : List Call :=
  [.allocate, .single 1 1 0, .barrier "sync" 2, .single 7 0 0]

/-- State after `pendingCalls` on a fresh tracer with preferred layer duration 0. -/
def pendingState : CTracer :=
  { qubits := [{ layer := some 0, lastUsedTime := 1, pendingZeroOps := [7] }],
    preferredLayerDuration := 0,
    metricsByLayer := [{ duration := 1, startTime := 0, operations := [(1, 1)] },
                       { duration := 2, startTime := 1, operations := [], name := some "sync" }],
    globalBarrier := some 1 }

/-- Calls of a scenario in which an operation is moved behind a barrier: preferred layer
duration 10, a long operation on resource 0, a short one on resource 1, a barrier, a short
operation on resource 0 that opens layer 2, and an operation of duration 50 on resource 1. -/
def overrunCalls : List Call :=
  [.allocate, .allocate, .single 1 100 0, .single 2 1 1, .barrier "b" 0, .single 3 1 0,
   .single 4 50 1]

/-- State after `overrunCalls` on a fresh tracer with preferred layer duration 10. -/
def overrunState : CTracer :=
  { qubits := [{ layer := some 2, lastUsedTime := 111, pendingZeroOps := [] },
               { layer := some 2, lastUsedTime := 160, pendingZeroOps := [] }],
    preferredLayerDuration := 10,
    metricsByLayer := [{ duration := 100, startTime := 0, operations := [(1, 1), (2, 1)] },
                       { duration := 10, startTime := 100, operations := [], name := some "b" },
                       { duration := 10, startTime := 110, operations := [(3, 1), (4, 1)] }],
    globalBarrier := some 1 }

/-- Calls of the deferral scenario of the spec: one resource, no layer. -/
def deferralCalls : List Call := [.allocate]

/-- State after `deferralCalls` on a fresh tracer with preferred layer duration 0. -/
def deferralState : CTracer :=
  { qubits := [{ layer := INVALID, lastUsedTime := 0, pendingZeroOps := [] }],
    preferredLayerDuration := 0, metricsByLayer := [], globalBarrier := INVALID }

/-- Calls of the multi-resource scenario of the spec: resources A = 0, B = 1, C = 2 and one
layer of duration 10 in which all three are placed; C is used up to time 8. -/
def multiCalls : List Call :=
  [.allocate, .allocate, .allocate, .single 1 3 0, .single 2 3 1, .single 3 8 2]

/-- State after `multiCalls` on a fresh tracer with preferred layer duration 10. -/
def multiState : CTracer :=
  { qubits := [{ layer := some 0, lastUsedTime := 3, pendingZeroOps := [] },
               { layer := some 0, lastUsedTime := 3, pendingZeroOps := [] },
               { layer := some 0, lastUsedTime := 8, pendingZeroOps := [] }],
    preferredLayerDuration := 10,
    metricsByLayer :=
      [{ duration := 10, startTime := 0, operations := [(1, 1), (2, 1), (3, 1)] }],
    globalBarrier := INVALID }

/-- State of the scenario `threeOpsCalls` after the first operation. -/
def threeOpsAfterFirst : CTracer :=
  { qubits := [{ layer := some 0, lastUsedTime := 3, pendingZeroOps := [] },
               { layer := INVALID, lastUsedTime := 0, pendingZeroOps := [] }],
    preferredLayerDuration := 10,
    metricsByLayer := [{ duration := 10, startTime := 0, operations := [(1, 1)] }],
    globalBarrier := INVALID }

/-- State of the scenario `threeOpsCalls` after the second operation. -/
def threeOpsAfterSecond : CTracer :=
  { qubits := [{ layer := some 0, lastUsedTime := 7, pendingZeroOps := [] },
               { layer := INVALID, lastUsedTime := 0, pendingZeroOps := [] }],
    preferredLayerDuration := 10,
    metricsByLayer := [{ duration := 10, startTime := 0, operations := [(1, 1), (2, 1)] }],
    globalBarrier := INVALID }

/-- Steps 1 and 2 of `FindLayer` in the words of the spec (section 4.3): the candidate layer
of a resource with state `qs`.  An unused resource is eligible only if the duration is at most
the preferred layer duration and at least one layer exists, with candidate layer 0; a resource
last used in layer `L` has candidate `L` if the operation fits the remaining span of `L`, else
`L + 1` if the duration is at most the preferred layer duration and layer `L + 1` exists. -/
def specCandidate (s : CTracer) (qs : QubitState) (opDuration : Duration) : LayerId :=
  match qs.layer with
  | none =>
    if opDuration ≤ s.preferredLayerDuration ∧ 1 ≤ s.metricsByLayer.length then some 0
    else none
  | some L =>
    match s.metricsByLayer[L]? with
    | none => none
    | some layerL =>
      if qs.lastUsedTime + opDuration ≤ layerL.startTime + layerL.duration then some L
      else if opDuration ≤ s.preferredLayerDuration ∧ (s.metricsByLayer[L + 1]?).isSome then
        some (L + 1)
      else none

/-- Step 3 of `FindLayer` in the words of the spec (section 4.3): if a candidate was found and
a global barrier is active, the candidate is rejected when the barrier is the very last layer
and raised to `max candidate (barrier + 1)` otherwise. -/
def specBarrierAdjust (s : CTracer) (candidate : LayerId) : LayerId :=
  match candidate with
  | none => none
  | some c =>
    match s.globalBarrier with
    | none => some c
    | some b =>
      if b = s.metricsByLayer.length - 1 then none else some (max c (b + 1))

/-- The function `FindLayer` of the spec (section 4.3). -/
def specFindLayer (s : CTracer) (qs : QubitState) (opDuration : Duration) : LayerId :=
  specBarrierAdjust s (specCandidate s qs opDuration)

/-- The candidate layer as the code computes it (tracer.cpp, lines 45 to 62): the candidate of
the spec with the fit test on 32-bit sums. -/
def codeCandidate (s : CTracer) (qs : QubitState) (opDuration : Duration) : LayerId :=
  match qs.layer with
  | none =>
    if opDuration ≤ s.preferredLayerDuration ∧ 1 ≤ s.metricsByLayer.length then some 0
    else none
  | some L =>
    match s.metricsByLayer[L]? with
    | none => none
    | some layerL =>
      if wrap32 (qs.lastUsedTime + opDuration) ≤ wrap32 (layerL.startTime + layerL.duration)
      then some L
      else if opDuration ≤ s.preferredLayerDuration ∧ (s.metricsByLayer[L + 1]?).isSome then
        some (L + 1)
      else none

/-- State of the scenario `overrunCalls` before its last call: resource 1 was last used in
layer 0, the barrier is layer 1 and layer 2 exists. -/
def skipState : CTracer :=
  { qubits := [{ layer := some 2, lastUsedTime := 111, pendingZeroOps := [] },
               { layer := some 0, lastUsedTime := 1, pendingZeroOps := [] }],
    preferredLayerDuration := 10,
    metricsByLayer := [{ duration := 100, startTime := 0, operations := [(1, 1), (2, 1)] },
                       { duration := 10, startTime := 100, operations := [], name := some "b" },
                       { duration := 10, startTime := 110, operations := [(3, 1)] }],
    globalBarrier := some 1 }

/-- State with three unused resources and no layer. -/
def unusedState : CTracer :=
  { qubits := [{ layer := INVALID, lastUsedTime := 0, pendingZeroOps := [] },
               { layer := INVALID, lastUsedTime := 0, pendingZeroOps := [] },
               { layer := INVALID, lastUsedTime := 0, pendingZeroOps := [] }],
    preferredLayerDuration := 0, metricsByLayer := [], globalBarrier := INVALID }

/-- `TraceMultiOp` in the words of the spec (section 4.4): the target group must not be empty;
a call with no control and one target is delegated to `TraceSingleOp`; otherwise `FindLayer`
is folded with a running maximum over the targets and then the controls, stopping at "none";
a layer is created when the result is "none"; the operation is recorded once; and the
resource update is committed for every resource, in `targets` order then `controls` order. -/
def specTraceMultiOp (s : CTracer) (id : OpId) (duration : Duration)
    (controls targets : List Qubit) : Option CTracer :=
  match targets with
  | [] => none
  | t0 :: trest =>
    if controls = [] ∧ trest = [] then s.TraceSingleQubitOp id duration t0
    else
      match s.FindLayerToInsertOperationInto t0 duration with
      | none => none
      | some l0 =>
        match s.findLayerLoop duration (trest ++ controls) l0 with
        | none => none
        | some found =>
          match s.placeOperation id duration found with
          | none => none
          | some (s2, layer) => s2.updateLoop layer duration ((t0 :: trest) ++ controls)

/-- The effect of `UpdateQubitState` on the list of resource states, for a layer `l` that
starts at `start`. -/
def commitQubit (start : Time) (l : Nat) (d : Duration) (qsl : List QubitState) (q : Qubit) :
    List QubitState :=
  match qsl[q]? with
  | none => qsl
  | some st =>
    qsl.set q { layer := some l, lastUsedTime := wrap32 (max start st.lastUsedTime + d),
                pendingZeroOps := [] }

/-- Number of occurrences of `x` in all pending lists. -/
def pendingCount (x : OpId) (qsl : List QubitState) : Int :=
  (qsl.map (fun st => (st.pendingZeroOps.count x : Int))).sum

/-- Two states agree on what an observer of the tracer sees: the resource states, the barrier,
the preferred duration, the duration, start time and name of every layer, and the count of
every operation id in every layer. -/
def SameObservable (a b : CTracer) : Prop :=
  a.qubits = b.qubits ∧ a.globalBarrier = b.globalBarrier ∧
    a.preferredLayerDuration = b.preferredLayerDuration ∧
    a.metricsByLayer.map (fun L => (L.duration, L.startTime, L.name)) =
      b.metricsByLayer.map (fun L => (L.duration, L.startTime, L.name)) ∧
    ∀ i x, layerCount a.metricsByLayer i x = layerCount b.metricsByLayer i x

/-- State in which resources 0 and 1 have different pending operations. -/
def orderState : CTracer :=
  { qubits := [{ layer := INVALID, lastUsedTime := 0, pendingZeroOps := [7] },
               { layer := INVALID, lastUsedTime := 0, pendingZeroOps := [8] }],
    preferredLayerDuration := 0, metricsByLayer := [], globalBarrier := INVALID }

/-- Calls of a scenario in which a start time overflows: preferred layer duration 0 and three
single operations of duration 2147483647 on three resources, each of which opens a layer. -/
def wrapCalls : List Call :=
  [.allocate, .allocate, .allocate, .single 1 2147483647 0, .single 2 2147483647 1,
   .single 3 2147483647 2]

/-- State after the first five calls of `wrapCalls` on a fresh tracer with preferred layer
duration 0: two layers of duration 2147483647. -/
def twoLongState : CTracer :=
  { qubits := [{ layer := some 0, lastUsedTime := 2147483647, pendingZeroOps := [] },
               { layer := some 1, lastUsedTime := -2, pendingZeroOps := [] },
               { layer := INVALID, lastUsedTime := 0, pendingZeroOps := [] }],
    preferredLayerDuration := 0,
    metricsByLayer :=
      [{ duration := 2147483647, startTime := 0, operations := [(1, 1)] },
       { duration := 2147483647, startTime := 2147483647, operations := [(2, 1)] }],
    globalBarrier := INVALID }

/-- State after `wrapCalls` on a fresh tracer with preferred layer duration 0: the third
layer starts at -2. -/
def wrapState : CTracer :=
  { qubits := [{ layer := some 0, lastUsedTime := 2147483647, pendingZeroOps := [] },
               { layer := some 1, lastUsedTime := -2, pendingZeroOps := [] },
               { layer := some 2, lastUsedTime := 2147483647, pendingZeroOps := [] }],
    preferredLayerDuration := 0,
    metricsByLayer :=
      [{ duration := 2147483647, startTime := 0, operations := [(1, 1)] },
       { duration := 2147483647, startTime := 2147483647, operations := [(2, 1)] },
       { duration := 2147483647, startTime := -2, operations := [(3, 1)] }],
    globalBarrier := INVALID }

/-- Calls of a scenario in which a resource is used up to the greatest time: preferred layer
duration 0 and one single operation of duration 2147483647. -/
def longCalls : List Call := [.allocate, .single 1 2147483647 0]

/-- State after `longCalls` on a fresh tracer with preferred layer duration 0. -/
def longState : CTracer :=
  { qubits := [{ layer := some 0, lastUsedTime := 2147483647, pendingZeroOps := [] }],
    preferredLayerDuration := 0,
    metricsByLayer := [{ duration := 2147483647, startTime := 0, operations := [(1, 1)] }],
    globalBarrier := INVALID }

theorem sum_map_set {α : Type} (f : α → Int) :
    ∀ (l : List α) (i : Nat) (a x : α), l[i]? = some x →
      ((l.set i a).map f).sum = (l.map f).sum - f x + f a := by
  intro l
  induction l with
  | nil => intro i a x h; simp at h
  | cons y ys ih =>
    intro i a x h
    cases i with
    | zero =>
      simp at h
      subst h
      simp only [List.set, List.map_cons, List.sum_cons]
      omega
    | succ n =>
      simp at h
      have h1 := ih n a x h
      simp only [List.set, List.map_cons, List.sum_cons]
      omega

theorem set_getElem?_self {α : Type} :
    ∀ (l : List α) (i : Nat) (x : α), l[i]? = some x → l.set i x = l := by
  intro l
  induction l with
  | nil => intro i x h; simp
  | cons y ys ih =>
    intro i x h
    cases i with
    | zero => simp at h; simp [List.set, h]
    | succ n => simp at h; simp [List.set, ih n x h]

theorem countOf_recordOp (ops : List (OpId × Int)) (id x : OpId) :
    Layer.countOf (Layer.recordOp ops id) x = Layer.countOf ops x + (if x = id then 1 else 0) := by
  induction ops with
  | nil =>
    by_cases h : x = id
    · simp [Layer.recordOp, Layer.countOf, h]
    · have h' : ¬ id = x := fun e => h e.symm
      simp [Layer.recordOp, Layer.countOf, h, h']
  | cons e rest ih =>
    obtain ⟨k, c⟩ := e
    unfold Layer.recordOp
    by_cases hk : k = id
    · subst hk
      by_cases hx : k = x
      · subst hx; simp [Layer.countOf]
      · have hx' : ¬ x = k := fun e => hx e.symm
        simp [Layer.countOf, hx, hx']
    · by_cases hx : k = x
      · subst hx
        have : ¬ k = id := hk
        simp [Layer.countOf, hk]
      · simp [Layer.countOf, hk, hx, ih]

theorem countOf_foldl_recordOp (ids : List OpId) (x : OpId) :
    ∀ ops : List (OpId × Int),
      Layer.countOf (ids.foldl Layer.recordOp ops) x = Layer.countOf ops x + ids.count x := by
  induction ids with
  | nil => intro ops; simp
  | cons i rest ih =>
    intro ops
    simp only [List.foldl_cons, ih, countOf_recordOp, List.count_cons]
    by_cases h : x = i
    · subst h; simp; omega
    · have h' : ¬ i = x := fun e => h e.symm
      simp [h, h']

/-! ### Recording into one layer -/

theorem length_recordMany (ls : List Layer) (l : Nat) (ids : List OpId) :
    (recordMany ls l ids).length = ls.length := by
  unfold recordMany
  split <;> simp

theorem getElem?_recordMany_ne (ls : List Layer) (l : Nat) (ids : List OpId) (i : Nat)
    (h : i ≠ l) : (recordMany ls l ids)[i]? = ls[i]? := by
  unfold recordMany
  split
  · rfl
  · rw [List.getElem?_set_ne (Ne.symm h)]

theorem getElem?_recordMany_self (ls : List Layer) (l : Nat) (ids : List OpId) (L : Layer)
    (h : ls[l]? = some L) :
    (recordMany ls l ids)[l]? =
      some { L with operations := ids.foldl Layer.recordOp L.operations } := by
  have hl : l < ls.length := by
    by_contra hc
    rw [List.getElem?_eq_none (Nat.le_of_not_lt hc)] at h
    cases h
  unfold recordMany
  rw [h]
  simp [List.getElem?_set_self hl]

theorem recordMany_of_some (ls : List Layer) (l : Nat) (ids : List OpId) (L : Layer)
    (h : ls[l]? = some L) :
    recordMany ls l ids =
      ls.set l { L with operations := ids.foldl Layer.recordOp L.operations } := by
  unfold recordMany
  rw [h]

theorem recordMany_of_none (ls : List Layer) (l : Nat) (ids : List OpId)
    (h : ls[l]? = none) : recordMany ls l ids = ls := by
  unfold recordMany
  rw [h]

theorem recordMany_nil (ls : List Layer) (l : Nat) : recordMany ls l [] = ls := by
  unfold recordMany
  split
  · rfl
  · next L h => exact set_getElem?_self ls l L h

theorem recordMany_append (ls : List Layer) (l : Nat) (a b : List OpId) :
    recordMany (recordMany ls l a) l b = recordMany ls l (a ++ b) := by
  cases h : ls[l]? with
  | none =>
    have h1 : recordMany ls l a = ls := by unfold recordMany; rw [h]
    rw [h1]
    unfold recordMany
    rw [h]
  | some L =>
    have h1 := getElem?_recordMany_self ls l a L h
    rw [recordMany_of_some _ l b _ h1, recordMany_of_some ls l a L h,
      recordMany_of_some ls l (a ++ b) L h]
    simp [List.set_set, List.foldl_append]

theorem shape_recordMany (ls : List Layer) (l : Nat) (ids : List OpId) :
    shape (recordMany ls l ids) = shape ls := by
  apply List.ext_getElem?
  intro i
  unfold shape
  rw [List.getElem?_map, List.getElem?_map]
  by_cases h : i = l
  · subst h
    cases hL : ls[i]? with
    | none =>
      have : recordMany ls i ids = ls := by unfold recordMany; rw [hL]
      rw [this, hL]
    | some L => rw [getElem?_recordMany_self ls i ids L hL]; rfl
  · rw [getElem?_recordMany_ne ls l ids i h]

theorem addOperationToLayer_eq (s s' : CTracer) (id : OpId) (l : Nat) :
    s.AddOperationToLayer id l = some s' ↔
      l < s.metricsByLayer.length ∧
        s' = { s with metricsByLayer := recordMany s.metricsByLayer l [id] } := by
  unfold CTracer.AddOperationToLayer recordMany
  cases h : s.metricsByLayer[l]? with
  | none =>
    have : s.metricsByLayer.length ≤ l := List.getElem?_eq_none_iff.mp h
    simp
    intro h1; omega
  | some L =>
    have hl : l < s.metricsByLayer.length := by
      by_contra hc
      rw [List.getElem?_eq_none (Nat.le_of_not_lt hc)] at h
      cases h
    simp [hl]
    constructor <;> intro e <;> exact e.symm

theorem addPendingOps_eq (l : Nat) (ids : List OpId) :
    ∀ (s s' : CTracer), l < s.metricsByLayer.length →
      (s.addPendingOps l ids = some s' ↔
        s' = { s with metricsByLayer := recordMany s.metricsByLayer l ids }) := by
  induction ids with
  | nil =>
    intro s s' _
    simp [CTracer.addPendingOps, recordMany_nil]
    constructor <;> intro e <;> exact e.symm
  | cons i rest ih =>
    intro s s' hl
    unfold CTracer.addPendingOps
    have h1 := (addOperationToLayer_eq s { s with metricsByLayer := recordMany s.metricsByLayer l [i] } i l).mpr ⟨hl, rfl⟩
    rw [h1]
    simp only
    rw [ih _ s' (by simpa [length_recordMany] using hl)]
    simp [recordMany_append]

theorem addPendingOps_length (l : Nat) (ids : List OpId) :
    ∀ (s s' : CTracer), s.addPendingOps l ids = some s' →
      s'.metricsByLayer.length = s.metricsByLayer.length := by
  induction ids with
  | nil =>
    intro s s' h
    simp [CTracer.addPendingOps] at h
    rw [← h]
  | cons i rest ih =>
    intro s s' h
    unfold CTracer.addPendingOps at h
    cases h1 : s.AddOperationToLayer i l with
    | none => rw [h1] at h; cases h
    | some s1 =>
      rw [h1] at h
      have h2 := ih s1 s' h
      have h3 := ((addOperationToLayer_eq s s1 i l).mp h1).2
      rw [h2, h3]
      simp [length_recordMany]

theorem updateQubitState_eq (s s' : CTracer) (q : Qubit) (l : Nat) (d : Duration) :
    s.UpdateQubitState q l d = some s' ↔
      ∃ qs L, s.qubits[q]? = some qs ∧ s.metricsByLayer[l]? = some L ∧
        s' = { s with
          metricsByLayer := recordMany s.metricsByLayer l qs.pendingZeroOps,
          qubits := s.qubits.set q
            { layer := some l, lastUsedTime := wrap32 (max L.startTime qs.lastUsedTime + d),
              pendingZeroOps := [] } } := by
  unfold CTracer.UpdateQubitState CTracer.UseQubit
  cases hq : s.qubits[q]? with
  | none => simp
  | some qs =>
    simp only
    cases hL : s.metricsByLayer[l]? with
    | none =>
      have hlen : s.metricsByLayer.length ≤ l := List.getElem?_eq_none_iff.mp hL
      constructor
      · intro h
        exfalso
        cases hp : s.addPendingOps l qs.pendingZeroOps with
        | none => rw [hp] at h; cases h
        | some s1 =>
          rw [hp] at h
          simp only at h
          have hlen' := addPendingOps_length l _ s s1 hp
          rw [List.getElem?_eq_none (by omega)] at h
          cases h
      · rintro ⟨qs', L, h1, h2, _⟩; cases h2
    | some L =>
      have hl : l < s.metricsByLayer.length := by
        by_contra hc
        rw [List.getElem?_eq_none (Nat.le_of_not_lt hc)] at hL
        cases hL
      have hp := (addPendingOps_eq l qs.pendingZeroOps s
        { s with metricsByLayer := recordMany s.metricsByLayer l qs.pendingZeroOps } hl).mpr rfl
      rw [hp]
      simp only
      rw [getElem?_recordMany_self _ l _ L hL]
      simp only [Option.some.injEq]
      constructor
      · intro h
        exact ⟨qs, L, rfl, rfl, h.symm⟩
      · rintro ⟨qs', L', h1, h2, h3⟩
        cases h1; cases h2
        exact h3.symm

/-! ### The search for a layer -/

theorem getElem?_lt {α : Type} (l : List α) (i : Nat) (x : α) (h : l[i]? = some x) :
    i < l.length := by
  by_contra hc
  rw [List.getElem?_eq_none (Nat.le_of_not_lt hc)] at h
  cases h

/-- The barrier adjustment at the end of `FindLayerToInsertOperationInto`, on a found
candidate `c`. -/
theorem barrierAdjust_some (s : CTracer) (c l : Nat)
    (hm : (match s.globalBarrier with
            | none => some (some c)
            | some globalBarrier =>
              if globalBarrier + 1 = s.metricsByLayer.length then some INVALID
              else some (some (max c (globalBarrier + 1)))) = some (some l)) :
    c ≤ l ∧ (∀ b, s.globalBarrier = some b → b < l) ∧
      (c < s.metricsByLayer.length →
        (∀ b, s.globalBarrier = some b → b < s.metricsByLayer.length) →
        l < s.metricsByLayer.length) := by
  cases hb : s.globalBarrier with
  | none =>
    rw [hb] at hm
    simp only [Option.some.injEq] at hm
    subst hm
    refine ⟨Nat.le_refl _, ?_, ?_⟩
    · intro b hb'; cases hb'
    · intro h _; exact h
  | some b =>
    rw [hb] at hm
    simp only at hm
    by_cases hlast : b + 1 = s.metricsByLayer.length
    · rw [if_pos hlast] at hm; cases hm
    · rw [if_neg hlast] at hm
      simp only [Option.some.injEq] at hm
      subst hm
      refine ⟨by omega, ?_, ?_⟩
      · intro b' hb'; cases hb'; omega
      · intro h hwf
        have := hwf b rfl
        omega

theorem findLayer_some (s : CTracer) (q : Qubit) (d : Duration) (l : Nat)
    (h : s.FindLayerToInsertOperationInto q d = some (some l)) :
    ∃ qs, s.qubits[q]? = some qs ∧ (∀ L, qs.layer = some L → L ≤ l) ∧
      (∀ b, s.globalBarrier = some b → b < l) ∧
      ((∀ b, s.globalBarrier = some b → b < s.metricsByLayer.length) →
        l < s.metricsByLayer.length) := by
  unfold CTracer.FindLayerToInsertOperationInto CTracer.UseQubit at h
  cases hq : s.qubits[q]? with
  | none => rw [hq] at h; cases h
  | some qs =>
    rw [hq] at h
    refine ⟨qs, rfl, ?_⟩
    simp only at h
    cases hlay : qs.layer with
    | none =>
      rw [hlay] at h
      simp only at h
      by_cases hc : d ≤ s.preferredLayerDuration ∧ s.metricsByLayer ≠ []
      · rw [if_pos hc] at h
        simp only at h
        have hne : 0 < s.metricsByLayer.length := List.length_pos.mpr hc.2
        obtain ⟨_, h2, h3⟩ := barrierAdjust_some s 0 l h
        exact ⟨fun L hL => (by cases hL), h2, h3 hne⟩
      · rw [if_neg hc] at h
        simp only at h
        cases h
    | some L0 =>
      rw [hlay] at h
      simp only at h
      cases hL : s.metricsByLayer[L0]? with
      | none => rw [hL] at h; cases h
      | some lastUsedIn =>
        rw [hL] at h
        simp only at h
        have hL0 : L0 < s.metricsByLayer.length := getElem?_lt _ _ _ hL
        by_cases hfit : wrap32 (qs.lastUsedTime + d) ≤
            wrap32 (lastUsedIn.startTime + lastUsedIn.duration)
        · rw [if_pos hfit] at h
          simp only at h
          obtain ⟨h1, h2, h3⟩ := barrierAdjust_some s L0 l h
          exact ⟨fun L hL => (by cases hL; exact h1), h2, h3 hL0⟩
        · rw [if_neg hfit] at h
          by_cases hnext : d ≤ s.preferredLayerDuration ∧ L0 + 1 < s.metricsByLayer.length
          · rw [if_pos hnext] at h
            simp only at h
            obtain ⟨h1, h2, h3⟩ := barrierAdjust_some s (L0 + 1) l h
            exact ⟨fun L hL => (by cases hL; omega), h2, h3 hnext.2⟩
          · rw [if_neg hnext] at h
            simp only at h
            cases h

theorem barrierAdjust_total (s : CTracer) (c : Nat) :
    ∃ r, (match s.globalBarrier with
            | none => some (some c)
            | some globalBarrier =>
              if globalBarrier + 1 = s.metricsByLayer.length then some INVALID
              else some (some (max c (globalBarrier + 1)))) = some r := by
  cases s.globalBarrier with
  | none => exact ⟨_, rfl⟩
  | some b =>
    simp only
    by_cases hlast : b + 1 = s.metricsByLayer.length
    · rw [if_pos hlast]; exact ⟨_, rfl⟩
    · rw [if_neg hlast]; exact ⟨_, rfl⟩

theorem findLayer_total (s : CTracer) (q : Qubit) (d : Duration) (qs : QubitState)
    (hq : s.qubits[q]? = some qs)
    (hL : ∀ L, qs.layer = some L → L < s.metricsByLayer.length) :
    ∃ r, s.FindLayerToInsertOperationInto q d = some r := by
  unfold CTracer.FindLayerToInsertOperationInto CTracer.UseQubit
  rw [hq]
  simp only
  cases hlay : qs.layer with
  | none =>
    simp only
    by_cases hc : d ≤ s.preferredLayerDuration ∧ s.metricsByLayer ≠ []
    · rw [if_pos hc]; exact barrierAdjust_total s 0
    · rw [if_neg hc]; exact ⟨_, rfl⟩
  | some L0 =>
    have h0 := hL L0 hlay
    simp only
    rw [List.getElem?_eq_getElem h0]
    simp only
    by_cases hfit : wrap32 (qs.lastUsedTime + d) ≤
        wrap32 (s.metricsByLayer[L0].startTime + s.metricsByLayer[L0].duration)
    · rw [if_pos hfit]; exact barrierAdjust_total s L0
    · rw [if_neg hfit]
      by_cases hnext : d ≤ s.preferredLayerDuration ∧ L0 + 1 < s.metricsByLayer.length
      · rw [if_pos hnext]; exact barrierAdjust_total s (L0 + 1)
      · rw [if_neg hnext]; exact ⟨_, rfl⟩

theorem findLayer_valid (s : CTracer) (q : Qubit) (d : Duration) (r : LayerId)
    (h : s.FindLayerToInsertOperationInto q d = some r) : q < s.qubits.length := by
  unfold CTracer.FindLayerToInsertOperationInto CTracer.UseQubit at h
  cases hq : s.qubits[q]? with
  | none => rw [hq] at h; cases h
  | some qs => exact getElem?_lt _ _ _ hq

/-! ### Committing resources -/

theorem committed_nil (l : Nat) (s : CTracer) : Committed l [] s s where
  pref := rfl
  barrier := rfl
  layers := ⟨[], (recordMany_nil _ _).symm, by simp⟩
  qlen := rfl
  others := fun _ _ => rfl
  members := fun q hq => by cases hq

theorem committed_update (s s' : CTracer) (q : Qubit) (l : Nat) (d : Duration)
    (h : s.UpdateQubitState q l d = some s') : Committed l [q] s s' := by
  obtain ⟨qs, L, hq, hL, rfl⟩ := (updateQubitState_eq s s' q l d).mp h
  have hlt := getElem?_lt _ _ _ hq
  refine ⟨rfl, rfl, ⟨qs.pendingZeroOps, rfl, ?_⟩, by simp, ?_, ?_⟩
  · simp only [pendingTotal]
    rw [sum_map_set _ s.qubits q _ qs hq]
    simp
  · intro q' hq'
    simp only [List.mem_singleton] at hq'
    simp only
    rw [List.getElem?_set_ne (Ne.symm hq')]
  · intro q' hq'
    simp only [List.mem_singleton] at hq'
    subst hq'
    exact ⟨_, by simp only; rw [List.getElem?_set_self hlt]⟩

theorem committed_trans (l : Nat) (a b : List Qubit) (s s1 s2 : CTracer)
    (h1 : Committed l a s s1) (h2 : Committed l b s1 s2) : Committed l (a ++ b) s s2 := by
  obtain ⟨ids1, e1, n1⟩ := h1.layers
  obtain ⟨ids2, e2, n2⟩ := h2.layers
  refine ⟨h2.pref.trans h1.pref, h2.barrier.trans h1.barrier, ⟨ids1 ++ ids2, ?_, ?_⟩,
    h2.qlen.trans h1.qlen, ?_, ?_⟩
  · rw [e2, e1, recordMany_append]
  · rw [List.length_append]; push_cast; omega
  · intro q hq
    simp only [List.mem_append, not_or] at hq
    rw [h2.others q hq.2, h1.others q hq.1]
  · intro q hq
    by_cases hb : q ∈ b
    · exact h2.members q hb
    · have ha : q ∈ a := by
        rcases List.mem_append.mp hq with h | h
        · exact h
        · exact absurd h hb
      obtain ⟨t, ht⟩ := h1.members q ha
      exact ⟨t, by rw [h2.others q hb, ht]⟩

theorem updateLoop_committed (l : Nat) (d : Duration) (qs : List Qubit) :
    ∀ s s' : CTracer, s.updateLoop l d qs = some s' → Committed l qs s s' := by
  induction qs with
  | nil =>
    intro s s' h
    simp only [CTracer.updateLoop, Option.some.injEq] at h
    subst h
    exact committed_nil l s
  | cons q rest ih =>
    intro s s' h
    unfold CTracer.updateLoop at h
    cases h1 : s.UpdateQubitState q l d with
    | none => rw [h1] at h; cases h
    | some s1 =>
      rw [h1] at h
      exact committed_trans l [q] rest s s1 s' (committed_update s s1 q l d h1) (ih s1 s' h)

theorem committed_length (l : Nat) (qs : List Qubit) (s s' : CTracer)
    (h : Committed l qs s s') : s'.metricsByLayer.length = s.metricsByLayer.length := by
  obtain ⟨ids, e, _⟩ := h.layers
  rw [e, length_recordMany]

theorem updateQubitState_total (s : CTracer) (q : Qubit) (l : Nat) (d : Duration)
    (hq : q < s.qubits.length) (hl : l < s.metricsByLayer.length) :
    ∃ s', s.UpdateQubitState q l d = some s' :=
  ⟨_, (updateQubitState_eq s _ q l d).mpr
    ⟨s.qubits[q], s.metricsByLayer[l], List.getElem?_eq_getElem hq,
      List.getElem?_eq_getElem hl, rfl⟩⟩

theorem updateLoop_total (l : Nat) (d : Duration) (qs : List Qubit) :
    ∀ s : CTracer, (∀ q, q ∈ qs → q < s.qubits.length) → l < s.metricsByLayer.length →
      ∃ s', s.updateLoop l d qs = some s' := by
  induction qs with
  | nil => intro s _ _; exact ⟨s, rfl⟩
  | cons q rest ih =>
    intro s hq hl
    obtain ⟨s1, h1⟩ := updateQubitState_total s q l d (hq q (List.mem_cons_self _ _)) hl
    have hc := committed_update s s1 q l d h1
    obtain ⟨s2, h2⟩ := ih s1
      (fun q' hq' => by rw [hc.qlen]; exact hq q' (List.mem_cons_of_mem _ hq'))
      (by rw [committed_length l [q] s s1 hc]; exact hl)
    exact ⟨s2, by unfold CTracer.updateLoop; rw [h1]; exact h2⟩

/-! ### Placing an operation -/

theorem createNewLayer_eq (s : CTracer) (d : Duration) :
    s.CreateNewLayer d =
      ({ s with metricsByLayer := s.metricsByLayer ++ [newLayer s d] },
        s.metricsByLayer.length) := rfl

theorem placeOperation_eq (s s2 : CTracer) (id : OpId) (d : Duration) (found : LayerId)
    (l : Nat) :
    s.placeOperation id d found = some (s2, l) ↔
      l = placedIndex s found ∧ (∀ l0, found = some l0 → l0 < s.metricsByLayer.length) ∧
        s2 = { s with metricsByLayer := recordMany (baseLayers s d found) l [id] } := by
  cases found with
  | none =>
    have hlen : s.metricsByLayer.length < (s.CreateNewLayer d).1.metricsByLayer.length := by
      simp [createNewLayer_eq]
    obtain ⟨s1, hs1⟩ : ∃ s1, s1 = (s.CreateNewLayer d).1 := ⟨_, rfl⟩
    have h1 := (addOperationToLayer_eq s1
      { s1 with metricsByLayer := recordMany s1.metricsByLayer s.metricsByLayer.length [id] }
      id s.metricsByLayer.length).mpr ⟨by rw [hs1]; exact hlen, rfl⟩
    have h2 : (s.CreateNewLayer d).2 = s.metricsByLayer.length := rfl
    unfold CTracer.placeOperation
    simp only [h2, ← hs1, h1, placedIndex, baseLayers]
    constructor
    · intro h
      simp only [Option.some.injEq, Prod.mk.injEq] at h
      refine ⟨h.2.symm, fun l0 hl0 => (by cases hl0), ?_⟩
      rw [← h.1, ← h.2, hs1]
      rfl
    · rintro ⟨rfl, _, rfl⟩
      rw [hs1]
      rfl
  | some l0 =>
    unfold CTracer.placeOperation
    simp only [placedIndex, baseLayers]
    constructor
    · intro h
      cases h1 : s.AddOperationToLayer id l0 with
      | none => rw [h1] at h; cases h
      | some s1 =>
        rw [h1] at h
        simp only [Option.some.injEq, Prod.mk.injEq] at h
        obtain ⟨hl, e⟩ := (addOperationToLayer_eq s s1 id l0).mp h1
        refine ⟨h.2.symm, fun l1 hl1 => (by cases hl1; exact hl), ?_⟩
        rw [← h.1, ← h.2, e]
    · rintro ⟨rfl, hl, rfl⟩
      have h1 := (addOperationToLayer_eq s
        { s with metricsByLayer := recordMany s.metricsByLayer l [id] } id l).mpr
        ⟨hl l rfl, rfl⟩
      rw [h1]

theorem placed_of (s s2 s' : CTracer) (id : OpId) (d : Duration) (found : LayerId) (l : Nat)
    (qs : List Qubit) (h : s.placeOperation id d found = some (s2, l))
    (hc : Committed l qs s2 s') : Placed id d found qs s s' := by
  obtain ⟨rfl, hl, rfl⟩ := (placeOperation_eq s s2 id d found _).mp h
  obtain ⟨ids, e, n⟩ := hc.layers
  refine ⟨hc.pref, hc.barrier, ?_, ⟨ids, ?_, n⟩, hc.qlen, hc.others, hc.members⟩
  · cases found with
    | none => simp [placedIndex, baseLayers]
    | some l0 => exact hl l0 rfl
  · rw [e]
    simp only
    rw [recordMany_append]
    rfl

theorem placeOperation_total (s : CTracer) (id : OpId) (d : Duration) (found : LayerId)
    (h : ∀ l0, found = some l0 → l0 < s.metricsByLayer.length) :
    ∃ s2, s.placeOperation id d found = some (s2, placedIndex s found) ∧
      s2.qubits = s.qubits ∧
      s2.metricsByLayer.length = (baseLayers s d found).length :=
  ⟨_, (placeOperation_eq s _ id d found _).mpr ⟨rfl, h, rfl⟩, rfl, by simp [length_recordMany]⟩

/-! ### The search loops of `TraceMultiQubitOp` -/

theorem findLayerLoop_spec (s : CTracer) (d : Duration) (qs : List Qubit) :
    ∀ (acc r : LayerId), s.findLayerLoop d qs acc = some r →
      match r with
      | none => acc = none ∨ ∃ q, q ∈ qs ∧ s.FindLayerToInsertOperationInto q d = some INVALID
      | some M => ∃ a, acc = some a ∧ a ≤ M ∧
          (∀ q, q ∈ qs → ∃ l, s.FindLayerToInsertOperationInto q d = some (some l) ∧ l ≤ M) ∧
          (M = a ∨ ∃ q, q ∈ qs ∧ s.FindLayerToInsertOperationInto q d = some (some M)) := by
  induction qs with
  | nil =>
    intro acc r h
    simp only [CTracer.findLayerLoop, Option.some.injEq] at h
    subst h
    cases acc with
    | none => exact Or.inl rfl
    | some a => exact ⟨a, rfl, Nat.le_refl _, fun q hq => (by cases hq), Or.inl rfl⟩
  | cons q rest ih =>
    intro acc r h
    cases acc with
    | none =>
      simp only [CTracer.findLayerLoop, Option.some.injEq] at h
      subst h
      exact Or.inl rfl
    | some a =>
      simp only [CTracer.findLayerLoop] at h
      cases hf : s.FindLayerToInsertOperationInto q d with
      | none => rw [hf] at h; cases h
      | some found =>
        rw [hf] at h
        simp only at h
        have hi := ih _ r h
        cases found with
        | none =>
          cases r with
          | none => exact Or.inr ⟨q, List.mem_cons_self _ _, hf⟩
          | some M =>
            obtain ⟨a', ha', _⟩ := hi
            simp [LayerId.max] at ha'
        | some lq =>
          cases r with
          | none =>
            rcases hi with hi | ⟨q', hq', hf'⟩
            · simp [LayerId.max] at hi
            · exact Or.inr ⟨q', List.mem_cons_of_mem _ hq', hf'⟩
          | some M =>
            obtain ⟨a', ha', hle, hall, hex⟩ := hi
            simp only [LayerId.max, Option.some.injEq] at ha'
            subst ha'
            refine ⟨a, rfl, by omega, ?_, ?_⟩
            · intro q' hq'
              rcases List.mem_cons.mp hq' with e | hm
              · subst e; exact ⟨lq, hf, by omega⟩
              · exact hall q' hm
            · rcases hex with e | ⟨q', hq', hf'⟩
              · rcases Nat.le_total a lq with hle' | hle'
                · right
                  refine ⟨q, List.mem_cons_self _ _, ?_⟩
                  rw [hf, e, max_eq_right hle']
                · left
                  rw [e, max_eq_left hle']
              · exact Or.inr ⟨q', List.mem_cons_of_mem _ hq', hf'⟩

theorem findLayerLoop_append (s : CTracer) (d : Duration) (a b : List Qubit) :
    ∀ acc : LayerId, s.findLayerLoop d (a ++ b) acc =
      match s.findLayerLoop d a acc with
      | none => none
      | some r => s.findLayerLoop d b r := by
  induction a with
  | nil => intro acc; simp [CTracer.findLayerLoop]
  | cons q rest ih =>
    intro acc
    cases acc with
    | none =>
      simp only [List.cons_append, CTracer.findLayerLoop]
      cases b <;> rfl
    | some l =>
      simp only [List.cons_append, CTracer.findLayerLoop]
      cases hf : s.FindLayerToInsertOperationInto q d with
      | none => rfl
      | some found => simp only; exact ih _

theorem multiFound_of (s : CTracer) (d : Duration) (q0 : Qubit) (rest : List Qubit)
    (l0 found : LayerId) (h0 : s.FindLayerToInsertOperationInto q0 d = some l0)
    (h : s.findLayerLoop d rest l0 = some found) : MultiFound s d (q0 :: rest) found := by
  have hs := findLayerLoop_spec s d rest l0 found h
  cases found with
  | none =>
    rcases hs with e | ⟨q, hq, hf⟩
    · exact ⟨q0, List.mem_cons_self _ _, by rw [h0, e]⟩
    · exact ⟨q, List.mem_cons_of_mem _ hq, hf⟩
  | some M =>
    obtain ⟨a, ha, hle, hall, hex⟩ := hs
    subst ha
    refine ⟨?_, ?_⟩
    · intro q hq
      rcases List.mem_cons.mp hq with e | hm
      · subst e; exact ⟨a, h0, hle⟩
      · exact hall q hm
    · rcases hex with e | ⟨q, hq, hf⟩
      · exact ⟨q0, List.mem_cons_self _ _, by rw [h0, e]⟩
      · exact ⟨q, List.mem_cons_of_mem _ hq, hf⟩

theorem findLayerLoop_total (s : CTracer) (d : Duration) (qs : List Qubit)
    (hall : ∀ q, q ∈ qs → ∃ r, s.FindLayerToInsertOperationInto q d = some r) :
    ∀ acc : LayerId, ∃ r, s.findLayerLoop d qs acc = some r := by
  induction qs with
  | nil => intro acc; exact ⟨acc, rfl⟩
  | cons q rest ih =>
    intro acc
    cases acc with
    | none => exact ⟨none, rfl⟩
    | some a =>
      obtain ⟨r, hr⟩ := hall q (List.mem_cons_self _ _)
      simp only [CTracer.findLayerLoop, hr]
      exact ih (fun q' hq' => hall q' (List.mem_cons_of_mem _ hq')) _

/-! ### The two trace methods, case by case -/

theorem traceSingle_cases (s s' : CTracer) (id : OpId) (d : Duration) (q : Qubit)
    (h : s.TraceSingleQubitOp id d q = some s') :
    ∃ qs, s.qubits[q]? = some qs ∧
      ((s.defers qs d = true ∧
          s' = { s with
            qubits := s.qubits.set q { qs with pendingZeroOps := qs.pendingZeroOps ++ [id] } }) ∨
        (s.defers qs d = false ∧ ∃ found, s.FindLayerToInsertOperationInto q d = some found ∧
          Placed id d found [q] s s')) := by
  unfold CTracer.TraceSingleQubitOp CTracer.UseQubit at h
  cases hq : s.qubits[q]? with
  | none => rw [hq] at h; cases h
  | some qs =>
    rw [hq] at h
    simp only at h
    refine ⟨qs, rfl, ?_⟩
    cases hd : s.defers qs d with
    | true =>
      rw [hd] at h
      simp only [if_true, Option.some.injEq] at h
      exact Or.inl ⟨rfl, h.symm⟩
    | false =>
      rw [hd] at h
      simp only [Bool.false_eq_true, if_false] at h
      right
      refine ⟨rfl, ?_⟩
      cases hf : s.FindLayerToInsertOperationInto q d with
      | none => rw [hf] at h; cases h
      | some found =>
        rw [hf] at h
        simp only at h
        refine ⟨found, rfl, ?_⟩
        cases hp : s.placeOperation id d found with
        | none => rw [hp] at h; cases h
        | some r =>
          obtain ⟨s2, l⟩ := r
          rw [hp] at h
          simp only at h
          exact placed_of s s2 s' id d found l [q] hp (committed_update s2 s' q l d h)

theorem traceMulti_cases (s s' : CTracer) (id : OpId) (d : Duration) (ctl tgt : List Qubit)
    (h : s.TraceMultiQubitOp id d ctl tgt = some s') :
    (ctl = [] ∧ ∃ q, tgt = [q] ∧ s.TraceSingleQubitOp id d q = some s') ∨
      (¬ (ctl = [] ∧ tgt.length = 1) ∧ tgt ≠ [] ∧
        ∃ found, MultiFound s d (tgt ++ ctl) found ∧ Placed id d found (ctl ++ tgt) s s') := by
  unfold CTracer.TraceMultiQubitOp at h
  cases tgt with
  | nil => cases h
  | cons q0 rest =>
    simp only at h
    by_cases hdel : ctl = [] ∧ rest = []
    · rw [if_pos hdel] at h
      left
      exact ⟨hdel.1, q0, by rw [hdel.2], h⟩
    · rw [if_neg hdel] at h
      right
      refine ⟨?_, by simp, ?_⟩
      · intro hc
        apply hdel
        refine ⟨hc.1, ?_⟩
        have := hc.2
        simp only [List.length_cons, Nat.add_eq_right] at this
        exact List.length_eq_zero.mp this
      · cases h0 : s.FindLayerToInsertOperationInto q0 d with
        | none => rw [h0] at h; cases h
        | some l0 =>
          rw [h0] at h
          simp only at h
          cases h1 : s.findLayerLoop d rest l0 with
          | none => rw [h1] at h; cases h
          | some l1 =>
            rw [h1] at h
            simp only at h
            cases h2 : s.findLayerLoop d ctl l1 with
            | none => rw [h2] at h; cases h
            | some found =>
              rw [h2] at h
              simp only at h
              have hloop : s.findLayerLoop d (rest ++ ctl) l0 = some found := by
                rw [findLayerLoop_append, h1]
                exact h2
              refine ⟨found, multiFound_of s d q0 (rest ++ ctl) l0 found h0 hloop, ?_⟩
              cases hp : s.placeOperation id d found with
              | none => rw [hp] at h; cases h
              | some r =>
                obtain ⟨s2, l⟩ := r
                rw [hp] at h
                simp only at h
                cases h3 : s2.updateLoop l d ctl with
                | none => rw [h3] at h; cases h
                | some s3 =>
                  rw [h3] at h
                  simp only at h
                  exact placed_of s s2 s' id d found l (ctl ++ q0 :: rest) hp
                    (committed_trans l ctl (q0 :: rest) s2 s3 s'
                      (updateLoop_committed l d ctl s2 s3 h3)
                      (updateLoop_committed l d (q0 :: rest) s3 s' h))

/-! ### The calls succeed on well-formed states -/

theorem traceSingle_total (s : CTracer) (hwf : WF s) (id : OpId) (d : Duration) (q : Qubit)
    (hq : q < s.qubits.length) : ∃ s', s.TraceSingleQubitOp id d q = some s' := by
  have hget : s.qubits[q]? = some s.qubits[q] := List.getElem?_eq_getElem hq
  unfold CTracer.TraceSingleQubitOp CTracer.UseQubit
  rw [hget]
  simp only
  cases hd : s.defers s.qubits[q] d with
  | true => simp
  | false =>
    simp only [Bool.false_eq_true, if_false]
    obtain ⟨found, hf⟩ := findLayer_total s q d _ hget (fun L hL => hwf.qubitLayer q _ L hget hL)
    rw [hf]
    simp only
    have hrange : ∀ l0, found = some l0 → l0 < s.metricsByLayer.length := by
      intro l0 e
      subst e
      obtain ⟨_, _, _, _, h4⟩ := findLayer_some s q d l0 hf
      exact h4 hwf.barrierLayer
    obtain ⟨s2, hp, hq2, hl2⟩ := placeOperation_total s id d found hrange
    rw [hp]
    simp only
    apply updateQubitState_total
    · rw [hq2]; exact hq
    · rw [hl2]
      cases found with
      | none => simp [placedIndex, baseLayers]
      | some l0 => exact hrange l0 rfl

theorem multiFound_range (s : CTracer) (hwf : WF s) (d : Duration) (qs : List Qubit)
    (found : LayerId) (h : MultiFound s d qs found) :
    ∀ l0, found = some l0 → l0 < s.metricsByLayer.length := by
  intro l0 e
  subst e
  obtain ⟨_, q, _, hf⟩ := h
  obtain ⟨_, _, _, _, h4⟩ := findLayer_some s q d l0 hf
  exact h4 hwf.barrierLayer

theorem traceMulti_total (s : CTracer) (hwf : WF s) (id : OpId) (d : Duration)
    (ctl tgt : List Qubit) (htgt : tgt ≠ [])
    (hq : ∀ q, q ∈ ctl ++ tgt → q < s.qubits.length) :
    ∃ s', s.TraceMultiQubitOp id d ctl tgt = some s' := by
  cases tgt with
  | nil => exact absurd rfl htgt
  | cons q0 rest =>
    unfold CTracer.TraceMultiQubitOp
    simp only
    by_cases hdel : ctl = [] ∧ rest = []
    · rw [if_pos hdel]
      exact traceSingle_total s hwf id d q0 (hq q0 (by simp))
    · rw [if_neg hdel]
      have hfind : ∀ q, q ∈ ctl ++ q0 :: rest →
          ∃ r, s.FindLayerToInsertOperationInto q d = some r := by
        intro q hm
        have hlt := hq q hm
        have hget : s.qubits[q]? = some s.qubits[q] := List.getElem?_eq_getElem hlt
        exact findLayer_total s q d _ hget (fun L hL => hwf.qubitLayer q _ L hget hL)
      obtain ⟨l0, h0⟩ := hfind q0 (by simp)
      rw [h0]
      simp only
      obtain ⟨l1, h1⟩ := findLayerLoop_total s d rest
        (fun q hm => hfind q (by simp [hm])) l0
      rw [h1]
      simp only
      obtain ⟨found, h2⟩ := findLayerLoop_total s d ctl
        (fun q hm => hfind q (by simp [hm])) l1
      rw [h2]
      simp only
      have hloop : s.findLayerLoop d (rest ++ ctl) l0 = some found := by
        rw [findLayerLoop_append, h1]
        exact h2
      have hrange := multiFound_range s hwf d _ found
        (multiFound_of s d q0 (rest ++ ctl) l0 found h0 hloop)
      obtain ⟨s2, hp, hq2, hl2⟩ := placeOperation_total s id d found hrange
      rw [hp]
      simp only
      have hl : placedIndex s found < s2.metricsByLayer.length := by
        rw [hl2]
        cases found with
        | none => simp [placedIndex, baseLayers]
        | some l0 => exact hrange l0 rfl
      obtain ⟨s3, h3⟩ := updateLoop_total (placedIndex s found) d ctl s2
        (fun q hm => by rw [hq2]; exact hq q (by simp [hm])) hl
      rw [h3]
      simp only
      have hc := updateLoop_committed _ d ctl s2 s3 h3
      exact updateLoop_total (placedIndex s found) d (q0 :: rest) s3
        (fun q hm => by rw [hc.qlen, hq2]; exact hq q (List.mem_append_right _ hm))
        (by rw [committed_length _ _ _ _ hc]; exact hl)

theorem injectBarrier_eq (s : CTracer) (name : String) (d : Duration) :
    s.InjectGlobalBarrier name d =
      some { s with
        metricsByLayer := s.metricsByLayer ++ [{ newLayer s d with name := some name }],
        globalBarrier := some s.metricsByLayer.length } := by
  unfold CTracer.InjectGlobalBarrier
  simp only [createNewLayer_eq]
  rw [List.getElem?_append_right (Nat.le_refl _)]
  simp

/-! ### One call -/

theorem multiFound_singleton (s : CTracer) (d : Duration) (q : Qubit) (found : LayerId)
    (h : s.FindLayerToInsertOperationInto q d = some found) : MultiFound s d [q] found := by
  cases found with
  | none => exact ⟨q, List.mem_singleton_self q, h⟩
  | some M =>
    refine ⟨?_, q, List.mem_singleton_self q, h⟩
    intro q' hq'
    rw [List.mem_singleton] at hq'
    subst hq'
    exact ⟨M, h, Nat.le_refl _⟩

theorem multiFound_congr (s : CTracer) (d : Duration) (a b : List Qubit) (found : LayerId)
    (hab : ∀ q, q ∈ a ↔ q ∈ b) (h : MultiFound s d a found) : MultiFound s d b found := by
  cases found with
  | none =>
    obtain ⟨q, hq, hf⟩ := h
    exact ⟨q, (hab q).mp hq, hf⟩
  | some M =>
    obtain ⟨hall, q, hq, hf⟩ := h
    exact ⟨fun q' hq' => hall q' ((hab q').mpr hq'), q, (hab q).mp hq, hf⟩

/-- A trace call either defers its operation on its single resource, or places it. -/
theorem trace_cases (s s' : CTracer) (c : Call) (hc : c.isTrace = true)
    (h : s.step c = some s') :
    (c.deferredOn s = true ∧ c.duration = 0 ∧ ∃ q qs, c.resources = [q] ∧
        s.qubits[q]? = some qs ∧ s.defers qs c.duration = true ∧
        s' = { s with
          qubits := s.qubits.set q { qs with pendingZeroOps := qs.pendingZeroOps ++ [c.opId] } }) ∨
      (c.deferredOn s = false ∧ ∃ found, MultiFound s c.duration c.resources found ∧
        Placed c.opId c.duration found c.resources s s') := by
  have single : ∀ id d q, s.TraceSingleQubitOp id d q = some s' →
      ((match s.qubits[q]? with
          | some qs => s.defers qs d
          | none => false) = true ∧ d = 0 ∧ ∃ q' qs, [q] = [q'] ∧
        s.qubits[q']? = some qs ∧ s.defers qs d = true ∧
        s' = { s with
          qubits := s.qubits.set q' { qs with pendingZeroOps := qs.pendingZeroOps ++ [id] } }) ∨
      ((match s.qubits[q]? with
          | some qs => s.defers qs d
          | none => false) = false ∧ ∃ found, MultiFound s d [q] found ∧
        Placed id d found [q] s s') := by
    intro id d q h1
    obtain ⟨qs, hq, hcase⟩ := traceSingle_cases s s' id d q h1
    rw [hq]
    rcases hcase with ⟨hd, e⟩ | ⟨hd, found, hf, hp⟩
    · left
      refine ⟨hd, ?_, q, qs, rfl, hq, hd, e⟩
      have hd' := hd
      unfold CTracer.defers at hd'
      simp only [Bool.and_eq_true, decide_eq_true_eq] at hd'
      exact hd'.1
    · right
      exact ⟨hd, found, multiFound_singleton s d q found hf, hp⟩
  cases c with
  | allocate => cases hc
  | barrier name d => cases hc
  | single id d q => exact single id d q h
  | multi id d ctl tgt =>
    rcases traceMulti_cases s s' id d ctl tgt h with ⟨hctl, q, htgt, h1⟩ | ⟨hnd, _, found, hf, hp⟩
    · subst hctl; subst htgt
      exact single id d q h1
    · right
      refine ⟨?_, found, ?_, hp⟩
      · unfold Call.deferredOn
        split
        · next hx => cases hx
        · next hx =>
          exfalso
          simp only [Call.multi.injEq] at hx
          apply hnd
          rw [hx.2.2.1, hx.2.2.2]
          exact ⟨rfl, rfl⟩
        · rfl
      · exact multiFound_congr s d _ _ found
          (fun q => by simp only [Call.resources, List.mem_append]; exact Or.comm) hf

theorem step_valid (s s' : CTracer) (c : Call) (h : s.step c = some s') : c.Valid s := by
  cases c with
  | allocate => trivial
  | barrier name d => trivial
  | single id d q =>
    obtain ⟨qs, hq, _⟩ := traceSingle_cases s s' id d q h
    exact getElem?_lt _ _ _ hq
  | multi id d ctl tgt =>
    rcases traceMulti_cases s s' id d ctl tgt h with ⟨hctl, q, htgt, h1⟩ | ⟨_, hne, found, _, hp⟩
    · subst hctl; subst htgt
      obtain ⟨qs, hq, _⟩ := traceSingle_cases s s' id d q h1
      refine ⟨by simp, ?_⟩
      intro q' hq'
      simp only [List.nil_append, List.mem_singleton] at hq'
      subst hq'
      exact getElem?_lt _ _ _ hq
    · refine ⟨hne, ?_⟩
      intro q hq
      obtain ⟨t, ht⟩ := hp.members q hq
      rw [← hp.qlen]
      exact getElem?_lt _ _ _ ht

theorem step_total (s : CTracer) (hwf : WF s) (c : Call) (hv : c.Valid s) :
    ∃ s', s.step c = some s' := by
  cases c with
  | allocate => exact ⟨_, rfl⟩
  | barrier name d => exact ⟨_, injectBarrier_eq s name d⟩
  | single id d q => exact traceSingle_total s hwf id d q hv
  | multi id d ctl tgt => exact traceMulti_total s hwf id d ctl tgt hv.1 hv.2

theorem length_baseLayers (s : CTracer) (d : Duration) (found : LayerId) :
    s.metricsByLayer.length ≤ (baseLayers s d found).length := by
  cases found <;> simp [baseLayers]

theorem getElem?_baseLayers (s : CTracer) (d : Duration) (found : LayerId) (i : Nat)
    (h : i < s.metricsByLayer.length) :
    (baseLayers s d found)[i]? = s.metricsByLayer[i]? := by
  cases found with
  | none => simp only [baseLayers]; rw [List.getElem?_append_left h]
  | some _ => rfl

theorem placed_length (id : OpId) (d : Duration) (found : LayerId) (qs : List Qubit)
    (s s' : CTracer) (h : Placed id d found qs s s') :
    s'.metricsByLayer.length = (baseLayers s d found).length := by
  obtain ⟨ids, e, _⟩ := h.layers
  rw [e, length_recordMany]

/-! ### Well-formedness is an invariant -/

theorem wf_init (p : Int) : WF (CTracer.init p) where
  qubitLayer := by
    intro q qs L h
    simp [CTracer.init, CTracer.SetPreferredLayerDuration, CTracer.fresh] at h
  barrierLayer := by
    intro b h
    simp [CTracer.init, CTracer.SetPreferredLayerDuration, CTracer.fresh] at h

theorem wf_step (s s' : CTracer) (c : Call) (hwf : WF s) (h : s.step c = some s') : WF s' := by
  by_cases hc : c.isTrace = true
  · rcases trace_cases s s' c hc h with ⟨_, _, q, qs, _, hq, _, rfl⟩ | ⟨_, found, hf, hp⟩
    · refine ⟨?_, hwf.barrierLayer⟩
      intro q' qs' L hq' hL
      simp only at hq'
      by_cases e : q = q'
      · subst e
        rw [List.getElem?_set_self (getElem?_lt _ _ _ hq)] at hq'
        simp only [Option.some.injEq] at hq'
        subst hq'
        exact hwf.qubitLayer q qs L hq hL
      · rw [List.getElem?_set_ne e] at hq'
        exact hwf.qubitLayer q' qs' L hq' hL
    · have hlen := placed_length _ _ _ _ _ _ hp
      have hle := length_baseLayers s c.duration found
      refine ⟨?_, ?_⟩
      · intro q qs L hq hL
        by_cases hm : q ∈ c.resources
        · obtain ⟨t, ht⟩ := hp.members q hm
          rw [ht] at hq
          simp only [Option.some.injEq] at hq
          subst hq
          simp only [Option.some.injEq] at hL
          subst hL
          rw [hlen]
          exact hp.inRange
        · rw [hp.others q hm] at hq
          have := hwf.qubitLayer q qs L hq hL
          omega
      · intro b hb
        rw [hp.barrier] at hb
        have := hwf.barrierLayer b hb
        omega
  · cases c with
    | single id d q => exact absurd rfl hc
    | multi id d ctl tgt => exact absurd rfl hc
    | allocate =>
      simp only [CTracer.step, CTracer.AllocateQubit, Option.some.injEq] at h
      subst h
      refine ⟨?_, hwf.barrierLayer⟩
      intro q qs L hq hL
      simp only at hq
      by_cases hlt : q < s.qubits.length
      · rw [List.getElem?_append_left hlt] at hq
        exact hwf.qubitLayer q qs L hq hL
      · rw [List.getElem?_append_right (Nat.le_of_not_lt hlt)] at hq
        cases hk : q - s.qubits.length with
        | zero =>
          rw [hk] at hq
          simp only [List.getElem?_cons_zero, Option.some.injEq] at hq
          subst hq
          cases hL
        | succ n =>
          rw [hk] at hq
          simp at hq
    | barrier name d =>
      simp only [CTracer.step] at h
      rw [injectBarrier_eq] at h
      simp only [Option.some.injEq] at h
      subst h
      refine ⟨?_, ?_⟩
      · intro q qs L hq hL
        have := hwf.qubitLayer q qs L hq hL
        simp only [List.length_append, List.length_singleton]
        omega
      · intro b hb
        simp only [Option.some.injEq] at hb
        subst hb
        simp

/-- Induction over a run: a property that holds initially and is kept by every call holds
after the run. -/
theorem run_induction (P : CTracer → Prop)
    (hstep : ∀ s s' c, P s → s.step c = some s' → P s') :
    ∀ (cs : List Call) (s s' : CTracer), P s → s.run cs = some s' → P s' := by
  intro cs
  induction cs with
  | nil =>
    intro s s' hP h
    simp only [CTracer.run, Option.some.injEq] at h
    subst h
    exact hP
  | cons c rest ih =>
    intro s s' hP h
    unfold CTracer.run at h
    cases h1 : s.step c with
    | none => rw [h1] at h; cases h
    | some s1 =>
      rw [h1] at h
      exact ih s1 s' (hstep s s1 c hP h1) h

theorem wf_run (p : Int) (cs : List Call) (s : CTracer)
    (h : (CTracer.init p).run cs = some s) : WF s :=
  run_induction WF (fun s s' c hP hs => wf_step s s' c hP hs) cs _ s (wf_init p) h

/-! ### The layers after a placement -/

theorem placed_layers_ne (id : OpId) (d : Duration) (found : LayerId) (qs : List Qubit)
    (s s' : CTracer) (hp : Placed id d found qs s s') (i : Nat)
    (hi : i ≠ placedIndex s found) : s'.metricsByLayer[i]? = s.metricsByLayer[i]? := by
  obtain ⟨ids, e, _⟩ := hp.layers
  rw [e, getElem?_recordMany_ne _ _ _ _ hi]
  cases found with
  | some l => rfl
  | none =>
    simp only [baseLayers]
    simp only [placedIndex] at hi
    by_cases hlt : i < s.metricsByLayer.length
    · rw [List.getElem?_append_left hlt]
    · rw [List.getElem?_eq_none (by simp; omega), List.getElem?_eq_none (by omega)]

theorem placed_layers_self (id : OpId) (d : Duration) (found : LayerId) (qs : List Qubit)
    (s s' : CTracer) (hp : Placed id d found qs s s') :
    ∃ ids L', s'.metricsByLayer[placedIndex s found]? = some L' ∧
      (ids.length : Int) = pendingTotal s.qubits - pendingTotal s'.qubits ∧
      (∀ x, Layer.countOf L'.operations x =
        layerCount s.metricsByLayer (placedIndex s found) x + (id :: ids).count x) ∧
      (∀ L, s.metricsByLayer[placedIndex s found]? = some L →
        L'.duration = L.duration ∧ L'.startTime = L.startTime ∧ L'.name = L.name) ∧
      (found = none → L'.duration = max s.preferredLayerDuration d ∧
        L'.startTime = nextStart s.metricsByLayer ∧ L'.name = none) := by
  obtain ⟨ids, e, n⟩ := hp.layers
  obtain ⟨L, hL⟩ : ∃ L, (baseLayers s d found)[placedIndex s found]? = some L :=
    ⟨_, List.getElem?_eq_getElem hp.inRange⟩
  refine ⟨ids, _, by rw [e]; exact getElem?_recordMany_self _ _ _ L hL, n, ?_, ?_, ?_⟩
  · intro x
    simp only
    rw [countOf_foldl_recordOp]
    cases found with
    | some l =>
      simp only [baseLayers, placedIndex] at hL
      simp only [layerCount, placedIndex, hL]
    | none =>
      simp only [baseLayers, placedIndex] at hL
      rw [List.getElem?_append_right (Nat.le_refl _)] at hL
      simp only [Nat.sub_self, List.getElem?_cons_zero, Option.some.injEq] at hL
      subst hL
      simp only [layerCount, placedIndex]
      rw [List.getElem?_eq_none (Nat.le_refl _)]
      simp [newLayer, Layer.countOf]
  · intro L0 hL0
    have hlt := getElem?_lt _ _ _ hL0
    rw [getElem?_baseLayers s d found _ hlt, hL0] at hL
    simp only [Option.some.injEq] at hL
    subst hL
    exact ⟨rfl, rfl, rfl⟩
  · intro hnone
    subst hnone
    simp only [baseLayers, placedIndex] at hL
    rw [List.getElem?_append_right (Nat.le_refl _)] at hL
    simp only [Nat.sub_self, List.getElem?_cons_zero, Option.some.injEq] at hL
    subst hL
    exact ⟨rfl, rfl, rfl⟩

theorem placed_layerCount_ne (id : OpId) (d : Duration) (found : LayerId) (qs : List Qubit)
    (s s' : CTracer) (hp : Placed id d found qs s s') (i : Nat) (x : OpId)
    (hi : i ≠ placedIndex s found) :
    layerCount s'.metricsByLayer i x = layerCount s.metricsByLayer i x := by
  unfold layerCount
  rw [placed_layers_ne id d found qs s s' hp i hi]

theorem placed_layerCount_self (id : OpId) (d : Duration) (found : LayerId) (qs : List Qubit)
    (s s' : CTracer) (hp : Placed id d found qs s s') :
    ∃ ids : List OpId, ∀ x, layerCount s'.metricsByLayer (placedIndex s found) x =
      layerCount s.metricsByLayer (placedIndex s found) x + (id :: ids).count x := by
  obtain ⟨ids, L', hL', _, hcount, _⟩ := placed_layers_self id d found qs s s' hp
  refine ⟨ids, fun x => ?_⟩
  rw [← hcount x]
  simp only [layerCount, hL']

/-- The layer of a placement lies after the barrier and not before the layer of any resource
of the call. -/
theorem placedIndex_bounds (s : CTracer) (hwf : WF s) (d : Duration) (rs : List Qubit)
    (found : LayerId) (hf : MultiFound s d rs found) :
    (∀ b, s.globalBarrier = some b → b < placedIndex s found) ∧
      (∀ q qs L, q ∈ rs → s.qubits[q]? = some qs → qs.layer = some L →
        L ≤ placedIndex s found) := by
  cases found with
  | none =>
    refine ⟨fun b hb => hwf.barrierLayer b hb, ?_⟩
    intro q qs L _ hq hL
    exact Nat.le_of_lt (hwf.qubitLayer q qs L hq hL)
  | some M =>
    obtain ⟨hall, q0, _, hf0⟩ := hf
    obtain ⟨_, _, _, hbar, _⟩ := findLayer_some s q0 d M hf0
    refine ⟨hbar, ?_⟩
    intro q qs L hm hq hL
    obtain ⟨l, hfl, hle⟩ := hall q hm
    obtain ⟨qs', hq', hlay, _⟩ := findLayer_some s q d l hfl
    rw [hq] at hq'
    simp only [Option.some.injEq] at hq'
    subst hq'
    exact Nat.le_trans (hlay L hL) hle

/-- C1 (barrier wall).  In every state reached from a fresh tracer in which a global barrier
with index `b` is active, a trace call with valid arguments succeeds, leaves every layer with
index at most `b` unchanged, and, unless the operation is deferred, records the operation and
the flushed pending operations in one layer `l` with `b < l` and commits every resource of the
call to that layer `l`. -/
theorem barrier_wall (p : Int) (cs : List Call) (s : CTracer) (b : Nat) (c : Call)
    (hrun : (CTracer.init p).run cs = some s) (hb : s.globalBarrier = some b)
    (hc : c.isTrace = true) (hv : c.Valid s) :
    ∃ s', s.step c = some s' ∧
      (∀ i, i ≤ b → s'.metricsByLayer[i]? = s.metricsByLayer[i]?) ∧
      (c.deferredOn s = true → s'.metricsByLayer = s.metricsByLayer ∧
        ∀ q : Qubit, (s'.qubits[q]?).map QubitState.layer = (s.qubits[q]?).map QubitState.layer) ∧
      (c.deferredOn s = false → ∃ l, b < l ∧
        (∀ q, q ∈ c.resources → ∃ qs', s'.qubits[q]? = some qs' ∧ qs'.layer = some l) ∧
        (∀ q, q ∉ c.resources → s'.qubits[q]? = s.qubits[q]?) ∧
        (∀ i x, i ≠ l → layerCount s'.metricsByLayer i x = layerCount s.metricsByLayer i x) ∧
        layerCount s.metricsByLayer l c.opId + 1 ≤ layerCount s'.metricsByLayer l c.opId) := by
  have hwf := wf_run p cs s hrun
  obtain ⟨s', hs'⟩ := step_total s hwf c hv
  refine ⟨s', hs', ?_⟩
  rcases trace_cases s s' c hc hs' with ⟨hd, _, q, qs, _, hq, _, rfl⟩ | ⟨hd, found, hf, hp⟩
  · refine ⟨fun _ _ => rfl, fun _ => ⟨rfl, ?_⟩, fun h => ?_⟩
    · intro q'
      simp only
      by_cases e : q = q'
      · subst e
        rw [List.getElem?_set_self (getElem?_lt _ _ _ hq), hq]
        rfl
      · rw [List.getElem?_set_ne e]
    · rw [hd] at h; cases h
  · have hbound := (placedIndex_bounds s hwf c.duration c.resources found hf).1 b hb
    refine ⟨?_, fun h => ?_, fun _ => ?_⟩
    · intro i hi
      exact placed_layers_ne _ _ _ _ _ _ hp i (by omega)
    · rw [hd] at h; cases h
    · refine ⟨placedIndex s found, hbound, ?_, hp.others, ?_, ?_⟩
      · intro q hq
        obtain ⟨t, ht⟩ := hp.members q hq
        exact ⟨_, ht, rfl⟩
      · intro i x hi
        exact placed_layerCount_ne _ _ _ _ _ _ hp i x hi
      · obtain ⟨ids, hcount⟩ := placed_layerCount_self _ _ _ _ _ _ hp
        rw [hcount c.opId]
        simp only [List.count_cons_self]
        have : (0 : Int) ≤ (List.count c.opId ids : Int) := Int.natCast_nonneg _
        push_cast
        omega

/-! ### The shape of the layer table -/

theorem nextStart_shape (ls : List Layer) :
    nextStart ls = match (shape ls).getLast? with
      | some x => wrap32 (x.2 + x.1)
      | none => 0 := by
  unfold nextStart shape
  rw [List.getLast?_map]
  cases ls.getLast? <;> rfl

theorem shape_getElem? (ls : List Layer) (i : Nat) :
    (shape ls)[i]? = (ls[i]?).map (fun L => (L.duration, L.startTime)) := by
  unfold shape
  rw [List.getElem?_map]

theorem length_shape (ls : List Layer) : (shape ls).length = ls.length := by
  unfold shape
  rw [List.length_map]

theorem step_shape (s s' : CTracer) (c : Call) (h : s.step c = some s') :
    s'.preferredLayerDuration = s.preferredLayerDuration ∧
      (shape s'.metricsByLayer = shape s.metricsByLayer ∨
        shape s'.metricsByLayer = shape s.metricsByLayer ++
          [(max s.preferredLayerDuration c.duration, nextStart s.metricsByLayer)]) := by
  by_cases hc : c.isTrace = true
  · rcases trace_cases s s' c hc h with ⟨_, _, q, qs, _, hq, _, rfl⟩ | ⟨_, found, hf, hp⟩
    · exact ⟨rfl, Or.inl rfl⟩
    · refine ⟨hp.pref, ?_⟩
      obtain ⟨ids, e, _⟩ := hp.layers
      rw [e, shape_recordMany]
      cases found with
      | some l => exact Or.inl rfl
      | none =>
        right
        simp [baseLayers, shape, newLayer]
  · cases c with
    | single id d q => exact absurd rfl hc
    | multi id d ctl tgt => exact absurd rfl hc
    | allocate =>
      simp only [CTracer.step, CTracer.AllocateQubit, Option.some.injEq] at h
      subst h
      exact ⟨rfl, Or.inl rfl⟩
    | barrier name d =>
      simp only [CTracer.step] at h
      rw [injectBarrier_eq] at h
      simp only [Option.some.injEq] at h
      subst h
      refine ⟨rfl, Or.inr ?_⟩
      simp [shape, newLayer, Call.duration]

theorem chained_nil : Chained [] := by
  refine ⟨?_, ?_⟩
  · intro x h; simp at h
  · intro i x y h; simp at h

theorem chained_append (sh : List (Duration × Time)) (dur : Duration) (h : Chained sh) :
    Chained (sh ++ [(dur, match sh.getLast? with
      | some x => x.2 + x.1
      | none => 0)]) := by
  obtain ⟨h0, hs⟩ := h
  refine ⟨?_, ?_⟩
  · intro x hx
    cases sh with
    | nil =>
      simp only [List.nil_append, List.getElem?_cons_zero, Option.some.injEq] at hx
      subst hx
      rfl
    | cons a rest =>
      simp only [List.cons_append, List.getElem?_cons_zero, Option.some.injEq] at hx
      exact h0 x (by simp [hx])
  · intro i x y hx hy
    by_cases hlt : i + 1 < sh.length
    · rw [List.getElem?_append_left (by omega)] at hx
      rw [List.getElem?_append_left hlt] at hy
      exact hs i x y hx hy
    · have hi := getElem?_lt _ _ _ hy
      simp only [List.length_append, List.length_singleton] at hi
      have hlen : i + 1 = sh.length := by omega
      rw [List.getElem?_append_left (by omega)] at hx
      rw [List.getElem?_append_right (by omega)] at hy
      have hz : i + 1 - sh.length = 0 := by omega
      rw [hz] at hy
      simp only [List.getElem?_cons_zero, Option.some.injEq] at hy
      have hlast : sh.getLast? = some x := by
        rw [List.getLast?_eq_getElem?]
        have : sh.length - 1 = i := by omega
        rw [this]
        exact hx
      rw [hlast] at hy
      subst hy
      rfl

theorem wrap32_of_inRange (x : Int) (h : InRange32 x) : wrap32 x = x := by
  obtain ⟨h1, h2⟩ := h
  unfold wrap32
  omega

theorem wrap32_inRange (x : Int) : InRange32 (wrap32 x) := by
  unfold wrap32 InRange32
  omega

theorem chainedWrap_nil : ChainedWrap [] := by
  refine ⟨?_, ?_⟩
  · intro x h; simp at h
  · intro i x y h; simp at h

theorem chainedWrap_append (sh : List (Duration × Time)) (dur : Duration)
    (h : ChainedWrap sh) :
    ChainedWrap (sh ++ [(dur, match sh.getLast? with
      | some x => wrap32 (x.2 + x.1)
      | none => 0)]) := by
  obtain ⟨h0, hs⟩ := h
  refine ⟨?_, ?_⟩
  · intro x hx
    cases sh with
    | nil =>
      simp only [List.nil_append, List.getElem?_cons_zero, Option.some.injEq] at hx
      subst hx
      rfl
    | cons a rest =>
      simp only [List.cons_append, List.getElem?_cons_zero, Option.some.injEq] at hx
      exact h0 x (by simp [hx])
  · intro i x y hx hy
    by_cases hlt : i + 1 < sh.length
    · rw [List.getElem?_append_left (by omega)] at hx
      rw [List.getElem?_append_left hlt] at hy
      exact hs i x y hx hy
    · have hi := getElem?_lt _ _ _ hy
      simp only [List.length_append, List.length_singleton] at hi
      have hlen : i + 1 = sh.length := by omega
      rw [List.getElem?_append_left (by omega)] at hx
      rw [List.getElem?_append_right (by omega)] at hy
      have hz : i + 1 - sh.length = 0 := by omega
      rw [hz] at hy
      simp only [List.getElem?_cons_zero, Option.some.injEq] at hy
      have hlast : sh.getLast? = some x := by
        rw [List.getLast?_eq_getElem?]
        have : sh.length - 1 = i := by omega
        rw [this]
        exact hx
      rw [hlast] at hy
      subst hy
      rfl

theorem chainedWrap_step (s s' : CTracer) (c : Call)
    (hch : ChainedWrap (shape s.metricsByLayer)) (h : s.step c = some s') :
    ChainedWrap (shape s'.metricsByLayer) := by
  rcases (step_shape s s' c h).2 with e | e
  · rw [e]; exact hch
  · rw [e, nextStart_shape]
    exact chainedWrap_append _ _ hch

theorem chainedWrap_run (p : Int) (cs : List Call) (s : CTracer)
    (h : (CTracer.init p).run cs = some s) : ChainedWrap (shape s.metricsByLayer) :=
  run_induction (fun s => ChainedWrap (shape s.metricsByLayer))
    (fun s s' c hP hs => chainedWrap_step s s' c hP hs) cs (CTracer.init p) s
    chainedWrap_nil h

/-- Start times computed by `CreateNewLayer` are values of `int32_t`. -/
theorem chainedWrap_start_inRange (sh : List (Duration × Time)) (h : ChainedWrap sh)
    (i : Nat) (x : Duration × Time) (hx : sh[i]? = some x) : InRange32 x.2 := by
  cases i with
  | zero =>
    rw [h.1 x hx]
    unfold InRange32
    omega
  | succ n =>
    have hlt : n < sh.length := by
      have := getElem?_lt _ _ _ hx
      omega
    rw [h.2 n sh[n] x (List.getElem?_eq_getElem hlt) hx]
    exact wrap32_inRange _

/-- Where no sum overflows, the start times are chained exactly. -/
theorem chained_of_wrap (sh : List (Duration × Time)) (h : ChainedWrap sh)
    (hr : ∀ x, x ∈ sh → InRange32 (x.2 + x.1)) : Chained sh := by
  refine ⟨h.1, ?_⟩
  intro i x y hx hy
  rw [h.2 i x y hx hy]
  exact wrap32_of_inRange _ (hr x (List.getElem?_mem hx))

/-- C2, as stated, fails: with preferred layer duration 0 the run `wrapCalls` ends in
`wrapState`, where layer 1 starts at 2147483647 and has duration 2147483647 and layer 2
starts at -2, the 32-bit sum, not at 4294967294. -/
theorem start_time_chaining_counterexample :
    (CTracer.init 0).run wrapCalls = some wrapState ∧
      ∃ L1 L2, wrapState.metricsByLayer[1]? = some L1 ∧
        wrapState.metricsByLayer[1 + 1]? = some L2 ∧ L2.startTime = -2 ∧
        L1.startTime + L1.duration = 4294967294 ∧
        ¬ (L2.startTime = L1.startTime + L1.duration) :=
  ⟨rfl, _, _, rfl, rfl, rfl, rfl, by decide⟩

/-- C2, amended.  After any sequence of calls from a fresh tracer, the first layer starts
at 0 and each next layer starts at the 32-bit sum of the start time and the duration of the
previous layer; that is the exact sum whenever the exact sum is a value of `int32_t`. -/
theorem start_time_chaining (p : Int) (cs : List Call) (s : CTracer)
    (hrun : (CTracer.init p).run cs = some s) :
    (∀ L, s.metricsByLayer[0]? = some L → L.startTime = 0) ∧
      ∀ (i : Nat) (Li Lj : Layer), s.metricsByLayer[i]? = some Li →
        s.metricsByLayer[i + 1]? = some Lj →
        Lj.startTime = wrap32 (Li.startTime + Li.duration) ∧
          (InRange32 (Li.startTime + Li.duration) →
            Lj.startTime = Li.startTime + Li.duration) := by
  obtain ⟨h0, hs⟩ := chainedWrap_run p cs s hrun
  refine ⟨?_, ?_⟩
  · intro L hL
    exact h0 (L.duration, L.startTime) (by rw [shape_getElem?, hL]; rfl)
  · intro i Li Lj hi hj
    have h := hs i (Li.duration, Li.startTime) (Lj.duration, Lj.startTime)
      (by rw [shape_getElem?, hi]; rfl) (by rw [shape_getElem?, hj]; rfl)
    simp only at h
    refine ⟨h, fun hr => ?_⟩
    rw [h, wrap32_of_inRange _ hr]

/-! ### Layer durations -/

theorem durations_step (p : Int) (s s' : CTracer) (c : Call)
    (hP : s.preferredLayerDuration = p ∧ ∀ x, x ∈ shape s.metricsByLayer → p ≤ x.1)
    (h : s.step c = some s') :
    s'.preferredLayerDuration = p ∧ ∀ x, x ∈ shape s'.metricsByLayer → p ≤ x.1 := by
  obtain ⟨hpref, hsh⟩ := step_shape s s' c h
  refine ⟨hpref.trans hP.1, ?_⟩
  rcases hsh with e | e
  · rw [e]; exact hP.2
  · rw [e]
    intro x hx
    rcases List.mem_append.mp hx with hx | hx
    · exact hP.2 x hx
    · simp only [List.mem_singleton] at hx
      subst hx
      rw [hP.1]
      exact le_max_left _ _

theorem durations_run (p : Int) (cs : List Call) (s : CTracer)
    (h : (CTracer.init p).run cs = some s) :
    s.preferredLayerDuration = p ∧ ∀ x, x ∈ shape s.metricsByLayer → p ≤ x.1 :=
  run_induction (fun s => s.preferredLayerDuration = p ∧ ∀ x, x ∈ shape s.metricsByLayer → p ≤ x.1)
    (fun s s' c hP hs => durations_step p s s' c hP hs) cs (CTracer.init p) s
    ⟨rfl, fun x hx => by
      simp [CTracer.init, CTracer.SetPreferredLayerDuration, CTracer.fresh, shape] at hx⟩ h

theorem chained_mono (sh : List (Duration × Time)) (hch : Chained sh) (m : Int)
    (hm : ∀ x, x ∈ sh → m ≤ x.1) :
    ∀ (k i : Nat) (x y : Duration × Time), sh[i]? = some x → sh[i + k]? = some y →
      x.2 + m * k ≤ y.2 := by
  intro k
  induction k with
  | zero =>
    intro i x y hx hy
    rw [Nat.add_zero, hx] at hy
    simp only [Option.some.injEq] at hy
    subst hy
    simp
  | succ n ih =>
    intro i x y hx hy
    have hlt : i + n < sh.length := by
      have := getElem?_lt _ _ _ hy
      omega
    have hz : sh[i + n]? = some sh[i + n] := List.getElem?_eq_getElem hlt
    have h1 := ih i x _ hx hz
    have h2 := hch.2 (i + n) _ y hz hy
    have h3 := hm _ (List.getElem?_mem hz)
    push_cast
    rw [h2]
    linarith

/-- Witness of C1: the barrier scenario of the spec, a single operation of duration 1 after a
barrier with index 1. -/
theorem barrier_wall_witness :
    ∃ s', barrierState.step (.single 2 1 0) = some s' ∧
      (∀ i, i ≤ 1 → s'.metricsByLayer[i]? = barrierState.metricsByLayer[i]?) ∧
      ∃ l, 1 < l ∧ ∀ q, q ∈ [0] → ∃ qs', s'.qubits[q]? = some qs' ∧ qs'.layer = some l := by
  obtain ⟨s', h1, h2, _, h3⟩ :=
    barrier_wall 0 barrierCalls barrierState 1 (.single 2 1 0) rfl rfl rfl Nat.zero_lt_one
  obtain ⟨l, hl, hm, _⟩ := h3 rfl
  exact ⟨s', h1, h2, l, hl, hm⟩

/-- Witness of the amended C2: the two layers of `threeOpsState`, where no sum overflows. -/
theorem start_time_chaining_witness :
    (CTracer.init 10).run threeOpsCalls = some threeOpsState ∧
      (10 : Time) = wrap32 (0 + 10) ∧ (10 : Time) = 0 + 10 := by
  have h := (start_time_chaining 10 threeOpsCalls threeOpsState rfl).2 0
    { duration := 10, startTime := 0, operations := [(1, 1), (2, 1)] }
    { duration := 10, startTime := 10, operations := [(3, 1)] } rfl rfl
  exact ⟨rfl, h.1, h.2 ⟨by decide, by decide⟩⟩

/-- C3, as stated, fails in two ways.  With preferred layer duration 0 and non-negative
durations only, the run `zeroWidthCalls` ends in `zeroWidthState`, whose layers 0 and 1 both
start at 0; and the run `wrapCalls` ends in `wrapState`, where the start time of layer 2 has
overflowed: layer 1 starts at 2147483647 and layer 2 at -2. -/
theorem strict_start_times_counterexample :
    (0 : Int) ≤ 0 ∧ NonNegDurations zeroWidthCalls ∧
      (CTracer.init 0).run zeroWidthCalls = some zeroWidthState ∧
      (∃ L0 L1, zeroWidthState.metricsByLayer[0]? = some L0 ∧
        zeroWidthState.metricsByLayer[1]? = some L1 ∧ ¬ (L0.startTime < L1.startTime)) ∧
      NonNegDurations wrapCalls ∧
      (CTracer.init 0).run wrapCalls = some wrapState ∧
      ∃ L1 L2, wrapState.metricsByLayer[1]? = some L1 ∧
        wrapState.metricsByLayer[2]? = some L2 ∧ ¬ (L1.startTime < L2.startTime) := by
  refine ⟨le_refl _, ?_, rfl, ⟨_, _, rfl, rfl, by decide⟩, ?_, rfl, _, _, rfl, rfl, by decide⟩
  · intro c hc
    simp only [zeroWidthCalls, List.mem_cons, List.mem_singleton, List.not_mem_nil,
      or_false] at hc
    rcases hc with h | h | h | h | h <;> subst h <;> decide
  · intro c hc
    simp only [wrapCalls, List.mem_cons, List.mem_singleton, List.not_mem_nil,
      or_false] at hc
    rcases hc with h | h | h | h | h | h <;> subst h <;> decide

/-- Where the durations are non-negative and no layer ends after the greatest `int32_t`, the
start times are chained exactly. -/
theorem chained_of_ends (sh : List (Duration × Time)) (h : ChainedWrap sh)
    (hd : ∀ x, x ∈ sh → (0 : Int) ≤ x.1) (he : ∀ x, x ∈ sh → x.2 + x.1 < 2147483648) :
    Chained sh := by
  apply chained_of_wrap sh h
  intro x hx
  obtain ⟨i, hi⟩ := List.mem_iff_getElem?.mp hx
  have h1 := (chainedWrap_start_inRange sh h i x hi).1
  have h2 := hd x hx
  exact ⟨by linarith, he x hx⟩

/-- C3, amended.  In every state reached from a fresh tracer with a non-negative preferred
layer duration in which no layer ends after the greatest `int32_t` (for every layer,
`startTime + duration < 2147483648`, so that no start time has overflowed), start times do not
decrease with the layer index, and they increase strictly when the preferred layer duration is
positive. -/
theorem start_times_monotone (p : Int) (cs : List Call) (s : CTracer) (hp : 0 ≤ p)
    (hrun : (CTracer.init p).run cs = some s)
    (hends : ∀ L, L ∈ s.metricsByLayer → L.startTime + L.duration < 2147483648) :
    ∀ (i j : Nat) (Li Lj : Layer), i < j → s.metricsByLayer[i]? = some Li →
      s.metricsByLayer[j]? = some Lj →
      Li.startTime ≤ Lj.startTime ∧ (0 < p → Li.startTime < Lj.startTime) := by
  intro i j Li Lj hij hi hj
  have hdur := (durations_run p cs s hrun).2
  have hch : Chained (shape s.metricsByLayer) :=
    chained_of_ends _ (chainedWrap_run p cs s hrun)
      (fun x hx => le_trans hp (hdur x hx))
      (fun x hx => by
        unfold shape at hx
        obtain ⟨L, hL, rfl⟩ := List.mem_map.mp hx
        exact hends L hL)
  obtain ⟨k, hk⟩ : ∃ k, j = i + (k + 1) := ⟨j - i - 1, by omega⟩
  subst hk
  have h := chained_mono _ hch p hdur (k + 1) i (Li.duration, Li.startTime)
    (Lj.duration, Lj.startTime) (by rw [shape_getElem?, hi]; rfl)
    (by rw [shape_getElem?, hj]; rfl)
  simp only at h
  have hk0 : (0 : Int) ≤ k := Int.natCast_nonneg k
  push_cast at h
  constructor
  · nlinarith
  · intro hpos
    nlinarith

/-- Witness of the amended C3: the two layers of `threeOpsState`, preferred duration 10. -/
theorem start_times_monotone_witness :
    (CTracer.init 10).run threeOpsCalls = some threeOpsState ∧
      (0 : Time) ≤ 10 ∧ (0 : Time) < 10 := by
  have h := start_times_monotone 10 threeOpsCalls threeOpsState (by decide) rfl
    (by
      intro L hL
      simp only [threeOpsState, List.mem_cons, List.mem_singleton, List.not_mem_nil,
        or_false] at hL
      rcases hL with h | h <;> subst h <;> decide) 0 1
    { duration := 10, startTime := 0, operations := [(1, 1), (2, 1)] }
    { duration := 10, startTime := 10, operations := [(3, 1)] } (by decide) rfl rfl
  exact ⟨rfl, h.1, h.2 (by decide)⟩

/-! ### Pending operations -/

theorem defers_true (s : CTracer) (qs : QubitState) (d : Duration)
    (h : s.defers qs d = true) :
    d = 0 ∧ (qs.layer = INVALID ∨
      ∃ L b, qs.layer = some L ∧ s.globalBarrier = some b ∧ L < b) := by
  unfold CTracer.defers at h
  simp only [Bool.and_eq_true, decide_eq_true_eq] at h
  refine ⟨h.1, ?_⟩
  have h2 := h.2
  cases hl : qs.layer with
  | none => exact Or.inl rfl
  | some L =>
    rw [hl] at h2
    cases hb : s.globalBarrier with
    | none => rw [hb] at h2; cases h2
    | some b =>
      rw [hb] at h2
      simp only [decide_eq_true_eq] at h2
      exact Or.inr ⟨L, b, rfl, rfl, h2⟩

theorem defers_unused (s : CTracer) (qs : QubitState) (h : qs.layer = INVALID) :
    s.defers qs 0 = true := by
  unfold CTracer.defers
  rw [h]
  rfl

theorem pendingBehind_step (s s' : CTracer) (c : Call) (hwf : WF s) (hP : PendingBehind s)
    (h : s.step c = some s') : PendingBehind s' := by
  by_cases hc : c.isTrace = true
  · rcases trace_cases s s' c hc h with ⟨_, _, q, qs, _, hq, hd, rfl⟩ | ⟨_, found, hf, hp⟩
    · intro q' qs' hq' hne
      simp only at hq'
      by_cases e : q = q'
      · subst e
        rw [List.getElem?_set_self (getElem?_lt _ _ _ hq)] at hq'
        simp only [Option.some.injEq] at hq'
        subst hq'
        exact (defers_true s qs _ hd).2
      · rw [List.getElem?_set_ne e] at hq'
        exact hP q' qs' hq' hne
    · intro q qs hq hne
      by_cases hm : q ∈ c.resources
      · obtain ⟨t, ht⟩ := hp.members q hm
        rw [ht] at hq
        simp only [Option.some.injEq] at hq
        subst hq
        exact absurd rfl hne
      · rw [hp.others q hm] at hq
        rw [hp.barrier]
        exact hP q qs hq hne
  · cases c with
    | single id d q => exact absurd rfl hc
    | multi id d ctl tgt => exact absurd rfl hc
    | allocate =>
      simp only [CTracer.step, CTracer.AllocateQubit, Option.some.injEq] at h
      subst h
      intro q qs hq hne
      simp only at hq
      by_cases hlt : q < s.qubits.length
      · rw [List.getElem?_append_left hlt] at hq
        exact hP q qs hq hne
      · rw [List.getElem?_append_right (Nat.le_of_not_lt hlt)] at hq
        cases hk : q - s.qubits.length with
        | zero =>
          rw [hk] at hq
          simp only [List.getElem?_cons_zero, Option.some.injEq] at hq
          subst hq
          exact absurd rfl hne
        | succ n =>
          rw [hk] at hq
          simp at hq
    | barrier name d =>
      simp only [CTracer.step] at h
      rw [injectBarrier_eq] at h
      simp only [Option.some.injEq] at h
      subst h
      intro q qs hq hne
      simp only at hq
      cases hl : qs.layer with
      | none => exact Or.inl rfl
      | some L => exact Or.inr ⟨L, _, rfl, rfl, hwf.qubitLayer q qs L hq hl⟩

theorem pendingBehind_run (p : Int) (cs : List Call) (s : CTracer)
    (h : (CTracer.init p).run cs = some s) : PendingBehind s :=
  (run_induction (fun s => WF s ∧ PendingBehind s)
    (fun s s' c hP hs => ⟨wf_step s s' c hP.1 hs, pendingBehind_step s s' c hP.1 hP.2 hs⟩)
    cs (CTracer.init p) s
    ⟨wf_init p, fun q qs hq _ => by
      simp [CTracer.init, CTracer.SetPreferredLayerDuration, CTracer.fresh] at hq⟩ h).2

/-- C4 (pending-list invariant).  In every state reached from a fresh tracer, a resource
whose pending list is not empty is unused, or a global barrier is active and the layer of the
resource is strictly before the barrier; and every trace call that is not deferred leaves the
pending list of each of its resources empty.  A `TraceMultiQubitOp` call with a control or with
two or more targets is never deferred. -/
theorem pending_invariant (p : Int) (cs : List Call) (s : CTracer)
    (hrun : (CTracer.init p).run cs = some s) :
    (∀ (q : Qubit) (qs : QubitState), s.qubits[q]? = some qs → qs.pendingZeroOps ≠ [] →
      qs.layer = INVALID ∨
        ∃ L b, qs.layer = some L ∧ s.globalBarrier = some b ∧ L < b) ∧
      (∀ (c : Call) (s' : CTracer), c.isTrace = true → c.deferredOn s = false →
        s.step c = some s' →
        ∀ q, q ∈ c.resources → ∃ qs', s'.qubits[q]? = some qs' ∧ qs'.pendingZeroOps = []) ∧
      ∀ (id : OpId) (d : Duration) (ctl tgt : List Qubit), ¬ (ctl = [] ∧ tgt.length = 1) →
        (Call.multi id d ctl tgt).deferredOn s = false := by
  refine ⟨pendingBehind_run p cs s hrun, ?_, ?_⟩
  · intro c s' hc hnd hs q hq
    rcases trace_cases s s' c hc hs with ⟨hd, _⟩ | ⟨_, found, hf, hp⟩
    · rw [hd] at hnd; cases hnd
    · obtain ⟨t, ht⟩ := hp.members q hq
      exact ⟨_, ht, rfl⟩
  · intro id d ctl tgt hnd
    unfold Call.deferredOn
    split
    · next hx => cases hx
    · next hx =>
      exfalso
      simp only [Call.multi.injEq] at hx
      apply hnd
      rw [hx.2.2.1, hx.2.2.2]
      exact ⟨rfl, rfl⟩
    · rfl

/-- Witness of C4: a resource with a pending operation behind the barrier, and the placement
that flushes it. -/
theorem pending_invariant_witness :
    (CTracer.init 0).run pendingCalls = some pendingState ∧
      (∃ L b, (some 0 : LayerId) = some L ∧ pendingState.globalBarrier = some b ∧ L < b) ∧
      ∃ qs', (pendingState.step (.single 8 3 0)).bind (fun s' => s'.qubits[0]?) = some qs' ∧
        qs'.pendingZeroOps = [] := by
  have h := pending_invariant 0 pendingCalls pendingState rfl
  refine ⟨rfl, ?_, ?_⟩
  · rcases h.1 0 { layer := some 0, lastUsedTime := 1, pendingZeroOps := [7] } rfl
      (by decide) with h1 | h1
    · cases h1
    · exact h1
  · obtain ⟨qs', h1, h2⟩ := h.2.1 (.single 8 3 0)
      { qubits := [{ layer := some 2, lastUsedTime := 6, pendingZeroOps := [] }],
        preferredLayerDuration := 0,
        metricsByLayer := [{ duration := 1, startTime := 0, operations := [(1, 1)] },
          { duration := 2, startTime := 1, operations := [], name := some "sync" },
          { duration := 3, startTime := 3, operations := [(8, 1), (7, 1)] }],
        globalBarrier := some 1 } rfl rfl rfl 0 (List.mem_singleton_self 0)
    exact ⟨qs', h1, h2⟩

/-- C5 (forward-only resource transitions).  In every state reached from a fresh tracer,
every call with valid arguments succeeds, and every resource that was placed in a layer `L`
before the call is placed in a layer `L'` with `L ≤ L'` after it (so no placed resource
becomes unused again). -/
theorem forward_only (p : Int) (cs : List Call) (s : CTracer) (c : Call)
    (hrun : (CTracer.init p).run cs = some s) (hv : c.Valid s) :
    ∃ s', s.step c = some s' ∧
      ∀ (q : Qubit) (qs : QubitState) (L : Nat), s.qubits[q]? = some qs →
        qs.layer = some L →
        ∃ qs' L', s'.qubits[q]? = some qs' ∧ qs'.layer = some L' ∧ L ≤ L' := by
  have hwf := wf_run p cs s hrun
  obtain ⟨s', hs'⟩ := step_total s hwf c hv
  refine ⟨s', hs', ?_⟩
  intro q qs L hq hL
  by_cases hc : c.isTrace = true
  · rcases trace_cases s s' c hc hs' with ⟨_, _, q0, qs0, _, hq0, _, rfl⟩ | ⟨_, found, hf, hp⟩
    · simp only
      by_cases e : q0 = q
      · subst e
        rw [hq] at hq0
        simp only [Option.some.injEq] at hq0
        subst hq0
        rw [List.getElem?_set_self (getElem?_lt _ _ _ hq)]
        exact ⟨_, L, rfl, hL, Nat.le_refl _⟩
      · rw [List.getElem?_set_ne e]
        exact ⟨qs, L, hq, hL, Nat.le_refl _⟩
    · by_cases hm : q ∈ c.resources
      · obtain ⟨t, ht⟩ := hp.members q hm
        exact ⟨_, _, ht, rfl,
          (placedIndex_bounds s hwf c.duration c.resources found hf).2 q qs L hm hq hL⟩
      · exact ⟨qs, L, by rw [hp.others q hm]; exact hq, hL, Nat.le_refl _⟩
  · cases c with
    | single id d q => exact absurd rfl hc
    | multi id d ctl tgt => exact absurd rfl hc
    | allocate =>
      simp only [CTracer.step, CTracer.AllocateQubit, Option.some.injEq] at hs'
      subst hs'
      refine ⟨qs, L, ?_, hL, Nat.le_refl _⟩
      simp only
      rw [List.getElem?_append_left (getElem?_lt _ _ _ hq)]
      exact hq
    | barrier name d =>
      simp only [CTracer.step] at hs'
      rw [injectBarrier_eq] at hs'
      simp only [Option.some.injEq] at hs'
      subst hs'
      exact ⟨qs, L, hq, hL, Nat.le_refl _⟩

/-- Witness of C5: resource 0 of `barrierState` moves from layer 0 to a later layer. -/
theorem forward_only_witness :
    ∃ s', barrierState.step (.single 2 1 0) = some s' ∧
      ∃ qs' L', s'.qubits[0]? = some qs' ∧ qs'.layer = some L' ∧ 0 ≤ L' := by
  obtain ⟨s', h1, h2⟩ :=
    forward_only 0 barrierCalls barrierState (.single 2 1 0) rfl Nat.zero_lt_one
  exact ⟨s', h1, h2 0 { layer := some 0, lastUsedTime := 1, pendingZeroOps := [] } 0 rfl rfl⟩

/-- C6 fails on the code.  With preferred layer duration 10 and non-negative durations only,
the run `overrunCalls` ends in `overrunState`: resource 1 is placed in layer 2, which spans
110 to 120, and its `lastUsedTime` is 160, after the end of the layer. -/
theorem last_used_time_overrun :
    (CTracer.init 10).run overrunCalls = some overrunState ∧
      NonNegDurations overrunCalls ∧
      ∃ qs L, overrunState.qubits[1]? = some qs ∧ qs.layer = some 2 ∧
        overrunState.metricsByLayer[2]? = some L ∧ L.startTime = 110 ∧ L.duration = 10 ∧
        qs.lastUsedTime = 160 ∧ ¬ (qs.lastUsedTime ≤ L.startTime + L.duration) := by
  refine ⟨rfl, ?_, _, _, rfl, rfl, rfl, rfl, rfl, rfl, by decide⟩
  intro c hc
  simp only [overrunCalls, List.mem_cons, List.mem_singleton, List.not_mem_nil, or_false] at hc
  rcases hc with h | h | h | h | h | h | h <;> subst h <;> decide

/-! ### Deferral -/

theorem traceSingle_deferred (s : CTracer) (id : OpId) (d : Duration) (q : Qubit)
    (qs : QubitState) (hq : s.qubits[q]? = some qs) (hd : s.defers qs d = true) :
    s.TraceSingleQubitOp id d q =
      some { s with
        qubits := s.qubits.set q { qs with pendingZeroOps := qs.pendingZeroOps ++ [id] } } := by
  unfold CTracer.TraceSingleQubitOp CTracer.UseQubit
  rw [hq]
  simp only [hd, if_true]

/-- C7 (zero-duration deferral).  For every state, every resource `q` whose layer is unused
and every list `ids`, tracing the single operations `(id, 0, q)` for the ids in order succeeds,
leaves the layer table as it is (no layer is created, no count changes), leaves `q` unused
with the same `lastUsedTime`, appends `ids` to the pending list of `q`, and changes nothing
else. -/
theorem zero_duration_deferral (ids : List OpId) :
    ∀ (s : CTracer) (q : Qubit) (qs : QubitState), s.qubits[q]? = some qs →
      qs.layer = INVALID →
      ∃ s', s.run (ids.map (fun id => Call.single id 0 q)) = some s' ∧
        s'.metricsByLayer = s.metricsByLayer ∧
        s'.qubits = s.qubits.set q
          { layer := INVALID, lastUsedTime := qs.lastUsedTime,
            pendingZeroOps := qs.pendingZeroOps ++ ids } ∧
        s'.globalBarrier = s.globalBarrier ∧
        s'.preferredLayerDuration = s.preferredLayerDuration := by
  induction ids with
  | nil =>
    intro s q qs hq hun
    refine ⟨s, rfl, rfl, ?_, rfl, rfl⟩
    rw [List.append_nil]
    have : QubitState.mk INVALID qs.lastUsedTime qs.pendingZeroOps = qs := by
      cases qs
      simp only at hun
      subst hun
      rfl
    rw [this, set_getElem?_self _ _ _ hq]
  | cons id rest ih =>
    intro s q qs hq hun
    have h1 := traceSingle_deferred s id 0 q qs hq (defers_unused s qs hun)
    have hlt := getElem?_lt _ _ _ hq
    obtain ⟨s', hrun, hl, hqb, hb, hp⟩ := ih
      { s with
        qubits := s.qubits.set q { qs with pendingZeroOps := qs.pendingZeroOps ++ [id] } }
      q { qs with pendingZeroOps := qs.pendingZeroOps ++ [id] }
      (by simp only; rw [List.getElem?_set_self hlt]) hun
    refine ⟨s', ?_, hl, ?_, hb, hp⟩
    · simp only [List.map_cons, CTracer.run, CTracer.step, h1]
      exact hrun
    · rw [hqb]
      simp only [List.set_set, List.append_assoc, List.singleton_append]

/-- Witness of C7: three zero-duration operations on an unused resource. -/
theorem zero_duration_deferral_witness :
    ∃ s', deferralState.run [Call.single 1 0 0, Call.single 1 0 0, Call.single 3 0 0] =
        some s' ∧
      s'.metricsByLayer = [] ∧
      s'.qubits = [{ layer := INVALID, lastUsedTime := 0, pendingZeroOps := [1, 1, 3] }] := by
  obtain ⟨s', h1, h2, h3, _⟩ := zero_duration_deferral [1, 1, 3] deferralState 0
    { layer := INVALID, lastUsedTime := 0, pendingZeroOps := [] } rfl rfl
  exact ⟨s', h1, h2, h3⟩

/-- C8 (multi-resource placement).  In every state reached from a fresh tracer, a
`TraceMultiQubitOp` call with valid arguments that is not delegated to `TraceSingleQubitOp`
succeeds and places the operation in one layer `M`: only layer `M` gains operations, the count
of `id` in `M` grows, and every resource of both groups ends in layer `M`.  `M` is a newly
created layer, with index the previous number of layers, when the search gives `INVALID` for
at least one resource; otherwise no layer is created and `M` is the greatest layer the search
gives over all targets and controls. -/
theorem multi_placement (p : Int) (cs : List Call) (s : CTracer) (id : OpId) (d : Duration)
    (ctl tgt : List Qubit) (hrun : (CTracer.init p).run cs = some s)
    (hnd : ¬ (ctl = [] ∧ tgt.length = 1)) (hne : tgt ≠ [])
    (hq : ∀ q, q ∈ ctl ++ tgt → q < s.qubits.length) :
    ∃ s' M, s.TraceMultiQubitOp id d ctl tgt = some s' ∧
      (∀ q, q ∈ ctl ++ tgt → ∃ qs', s'.qubits[q]? = some qs' ∧ qs'.layer = some M) ∧
      (∀ i x, i ≠ M → layerCount s'.metricsByLayer i x = layerCount s.metricsByLayer i x) ∧
      layerCount s.metricsByLayer M id + 1 ≤ layerCount s'.metricsByLayer M id ∧
      ((∃ q, q ∈ tgt ++ ctl ∧ s.FindLayerToInsertOperationInto q d = some INVALID) →
        M = s.metricsByLayer.length ∧
          s'.metricsByLayer.length = s.metricsByLayer.length + 1) ∧
      ((∀ q, q ∈ tgt ++ ctl → s.FindLayerToInsertOperationInto q d ≠ some INVALID) →
        s'.metricsByLayer.length = s.metricsByLayer.length ∧
          (∃ q, q ∈ tgt ++ ctl ∧ s.FindLayerToInsertOperationInto q d = some (some M)) ∧
          ∀ q l, q ∈ tgt ++ ctl → s.FindLayerToInsertOperationInto q d = some (some l) →
            l ≤ M) := by
  have hwf := wf_run p cs s hrun
  obtain ⟨s', hs'⟩ := traceMulti_total s hwf id d ctl tgt hne hq
  rcases traceMulti_cases s s' id d ctl tgt hs' with ⟨hctl, q, htgt, _⟩ | ⟨_, _, found, hf, hp⟩
  · exact absurd ⟨hctl, by rw [htgt]; rfl⟩ hnd
  · refine ⟨s', placedIndex s found, hs', ?_, ?_, ?_, ?_, ?_⟩
    · intro q hm
      obtain ⟨t, ht⟩ := hp.members q hm
      exact ⟨_, ht, rfl⟩
    · intro i x hi
      exact placed_layerCount_ne _ _ _ _ _ _ hp i x hi
    · obtain ⟨ids, hcount⟩ := placed_layerCount_self _ _ _ _ _ _ hp
      rw [hcount id]
      simp only [List.count_cons_self]
      have : (0 : Int) ≤ (List.count id ids : Int) := Int.natCast_nonneg _
      push_cast
      omega
    · rintro ⟨q, hm, hfq⟩
      cases found with
      | none =>
        refine ⟨rfl, ?_⟩
        rw [placed_length _ _ _ _ _ _ hp]
        simp [baseLayers]
      | some M =>
        obtain ⟨l, hl, _⟩ := hf.1 q hm
        rw [hfq] at hl
        cases hl
    · intro hall
      cases found with
      | none =>
        obtain ⟨q, hm, hfq⟩ := hf
        exact absurd hfq (hall q hm)
      | some M =>
        refine ⟨by rw [placed_length _ _ _ _ _ _ hp]; rfl, hf.2, ?_⟩
        intro q l hm hfq
        obtain ⟨l', hl', hle⟩ := hf.1 q hm
        rw [hfq] at hl'
        simp only [Option.some.injEq] at hl'
        subst hl'
        exact hle

/-- Witness of C8: the scenario of the spec with controls `[A]` and targets `[B, C]`, where
the search gives `INVALID` for `C`. -/
theorem multi_placement_witness :
    ∃ s' M, multiState.TraceMultiQubitOp 5 5 [0] [1, 2] = some s' ∧
      (∀ q, q ∈ [0] ++ [1, 2] → ∃ qs', s'.qubits[q]? = some qs' ∧ qs'.layer = some M) ∧
      M = 1 ∧ s'.metricsByLayer.length = 2 := by
  obtain ⟨s', M, h1, h2, _, _, h3, _⟩ :=
    multi_placement 10 multiCalls multiState 5 5 [0] [1, 2] rfl (by decide) (by decide)
      (by decide)
  obtain ⟨h4, h5⟩ := h3 ⟨2, by decide, rfl⟩
  exact ⟨s', M, h1, h2, h4, h5⟩

/-! ### Counting -/

/-- C11, as stated, fails: on `twoLongState`, whose last layer starts at 2147483647 and has
duration 2147483647, the new layer starts at -2, the 32-bit sum, and not at the start time of
the last layer plus its duration. -/
theorem inject_barrier_counterexample :
    (CTracer.init 0).run (wrapCalls.take 5) = some twoLongState ∧
      ∃ s' L lastLayer, twoLongState.InjectGlobalBarrier "x" 0 = some s' ∧
        s'.metricsByLayer = twoLongState.metricsByLayer ++ [L] ∧
        twoLongState.metricsByLayer.getLast? = some lastLayer ∧ L.startTime = -2 ∧
        ¬ (L.startTime = lastLayer.startTime + lastLayer.duration) :=
  ⟨rfl, _, _, _, rfl, rfl, rfl, rfl, by decide⟩

/-- C11, amended (contract of `InjectGlobalBarrier`).  For every state with `n` layers the
call succeeds and appends exactly one layer: its operations are empty, its duration is
`max preferredLayerDuration d`, it carries the label, and its start time is 0 when `n = 0` and
otherwise the 32-bit sum of the start time and the duration of the previous layer, which is
the exact sum whenever the exact sum is a value of `int32_t`; the global barrier becomes `n`;
every resource state, every earlier layer and the preferred layer duration are unchanged. -/
theorem inject_barrier_contract (s : CTracer) (label : String) (d : Duration) :
    ∃ s' L, s.InjectGlobalBarrier label d = some s' ∧
      s'.metricsByLayer = s.metricsByLayer ++ [L] ∧
      L.operations = [] ∧ L.duration = max s.preferredLayerDuration d ∧
      L.name = some label ∧
      (s.metricsByLayer = [] → L.startTime = 0) ∧
      (∀ lastLayer, s.metricsByLayer.getLast? = some lastLayer →
        L.startTime = wrap32 (lastLayer.startTime + lastLayer.duration) ∧
          (InRange32 (lastLayer.startTime + lastLayer.duration) →
            L.startTime = lastLayer.startTime + lastLayer.duration)) ∧
      s'.globalBarrier = some s.metricsByLayer.length ∧
      s'.qubits = s.qubits ∧
      s'.preferredLayerDuration = s.preferredLayerDuration ∧
      ∀ i, i < s.metricsByLayer.length → s'.metricsByLayer[i]? = s.metricsByLayer[i]? := by
  refine ⟨_, _, injectBarrier_eq s label d, rfl, rfl, rfl, rfl, ?_, ?_, rfl, rfl, rfl, ?_⟩
  · intro h
    simp [newLayer, nextStart, h]
  · intro lastLayer h
    have e : (newLayer s d).startTime =
        wrap32 (lastLayer.startTime + lastLayer.duration) := by
      simp [newLayer, nextStart, h]
    refine ⟨e, fun hr => ?_⟩
    rw [← wrap32_of_inRange _ hr]
    exact e
  · intro i hi
    simp only
    rw [List.getElem?_append_left hi]

/-- Witness of the amended C11: a barrier of duration 2 injected into `threeOpsAfterFirst`,
whose one layer starts at 0 and has duration 10; the new layer starts at 10. -/
theorem inject_barrier_contract_witness :
    ∃ s' L, threeOpsAfterFirst.InjectGlobalBarrier "sync" 2 = some s' ∧
      s'.metricsByLayer = threeOpsAfterFirst.metricsByLayer ++ [L] ∧
      L.startTime = 0 + 10 ∧ s'.globalBarrier = some 1 := by
  obtain ⟨s', L, h1, h2, _, _, _, _, h3, h4, _⟩ :=
    inject_barrier_contract threeOpsAfterFirst "sync" 2
  exact ⟨s', L, h1, h2,
    (h3 { duration := 10, startTime := 0, operations := [(1, 1)] } rfl).2
      ⟨by decide, by decide⟩, h4⟩

/-! ### Recording one operation -/

/-- C13, as stated, fails: after the third operation of the scenario resource A is in layer 1
and its `lastUsedTime` is 18 (the start 10 of layer 1 plus the duration 8), not 8. -/
theorem scenario_last_used_time_counterexample :
    (CTracer.init 10).run threeOpsCalls = some threeOpsState ∧
      ∃ qsA, threeOpsState.qubits[0]? = some qsA ∧ qsA.layer = some 1 ∧
        qsA.lastUsedTime = 18 ∧ ¬ (qsA.lastUsedTime = 8) :=
  ⟨rfl, _, rfl, rfl, rfl, by decide⟩

/-- C13, amended.  With preferred layer duration 10 and resources A = 0 and B = 1: after the
single operation `(1, 3, A)` there is layer 0 with duration 10 and start 0 and
`A.lastUsedTime = 3`; after `(2, 4, A)` there is still one layer, layer 0 holds `{1:1, 2:1}`
and `A.lastUsedTime = 7`; after `(3, 8, A)` a new layer 1 with duration 10 and start 10
holding `{3:1}` exists, `A.layer = 1` and `A.lastUsedTime = 18`. -/
theorem scenario_three_ops :
    (CTracer.init 10).run [.allocate, .allocate, .single 1 3 0] = some threeOpsAfterFirst ∧
      threeOpsAfterFirst.metricsByLayer =
        [{ duration := 10, startTime := 0, operations := [(1, 1)] }] ∧
      threeOpsAfterFirst.qubits[0]? =
        some { layer := some 0, lastUsedTime := 3, pendingZeroOps := [] } ∧
      threeOpsAfterFirst.step (.single 2 4 0) = some threeOpsAfterSecond ∧
      threeOpsAfterSecond.metricsByLayer =
        [{ duration := 10, startTime := 0, operations := [(1, 1), (2, 1)] }] ∧
      threeOpsAfterSecond.qubits[0]? =
        some { layer := some 0, lastUsedTime := 7, pendingZeroOps := [] } ∧
      threeOpsAfterSecond.step (.single 3 8 0) = some threeOpsState ∧
      threeOpsState.metricsByLayer =
        [{ duration := 10, startTime := 0, operations := [(1, 1), (2, 1)] },
         { duration := 10, startTime := 10, operations := [(3, 1)] }] ∧
      threeOpsState.qubits[0]? =
        some { layer := some 1, lastUsedTime := 18, pendingZeroOps := [] } :=
  ⟨rfl, rfl, rfl, rfl, rfl, rfl, rfl, rfl, rfl⟩

/-! ### A single placement in closed form -/

theorem specBarrierAdjust_eq (s : CTracer) (c : Nat) (hc : c < s.metricsByLayer.length) :
    (match s.globalBarrier with
      | none => some (some c)
      | some globalBarrier =>
        if globalBarrier + 1 = s.metricsByLayer.length then some INVALID
        else some (some (max c (globalBarrier + 1)))) =
      some (specBarrierAdjust s (some c)) := by
  unfold specBarrierAdjust
  cases s.globalBarrier with
  | none => rfl
  | some b =>
    simp only
    by_cases hlast : b + 1 = s.metricsByLayer.length
    · rw [if_pos hlast, if_pos (by omega)]
    · rw [if_neg hlast, if_neg (by omega)]

theorem findLayer_eq_code (s : CTracer) (q : Qubit) (qs : QubitState) (d : Duration)
    (hq : s.qubits[q]? = some qs)
    (hL : ∀ L, qs.layer = some L → L < s.metricsByLayer.length) :
    s.FindLayerToInsertOperationInto q d =
      some (specBarrierAdjust s (codeCandidate s qs d)) := by
  unfold CTracer.FindLayerToInsertOperationInto CTracer.UseQubit codeCandidate
  rw [hq]
  simp only
  cases hlay : qs.layer with
  | none =>
    simp only
    by_cases hc : d ≤ s.preferredLayerDuration ∧ s.metricsByLayer ≠ []
    · have hpos : 0 < s.metricsByLayer.length := List.length_pos.mpr hc.2
      rw [if_pos hc, if_pos ⟨hc.1, hpos⟩]
      exact specBarrierAdjust_eq s 0 hpos
    · have hc' : ¬ (d ≤ s.preferredLayerDuration ∧ 1 ≤ s.metricsByLayer.length) := by
        intro h
        exact hc ⟨h.1, List.length_pos.mp h.2⟩
      rw [if_neg hc, if_neg hc']
      rfl
  | some L0 =>
    have h0 := hL L0 hlay
    simp only
    rw [List.getElem?_eq_getElem h0]
    simp only
    by_cases hfit : wrap32 (qs.lastUsedTime + d) ≤
        wrap32 (s.metricsByLayer[L0].startTime + s.metricsByLayer[L0].duration)
    · rw [if_pos hfit, if_pos hfit]
      exact specBarrierAdjust_eq s L0 h0
    · rw [if_neg hfit, if_neg hfit]
      by_cases hnext : d ≤ s.preferredLayerDuration ∧ L0 + 1 < s.metricsByLayer.length
      · have hnext' : d ≤ s.preferredLayerDuration ∧ (s.metricsByLayer[L0 + 1]?).isSome := by
          refine ⟨hnext.1, ?_⟩
          rw [List.getElem?_eq_getElem hnext.2]
          rfl
        rw [if_pos hnext, if_pos hnext']
        exact specBarrierAdjust_eq s (L0 + 1) hnext.2
      · have hnext' : ¬ (d ≤ s.preferredLayerDuration ∧
            (s.metricsByLayer[L0 + 1]?).isSome = true) := by
          intro h
          apply hnext
          refine ⟨h.1, ?_⟩
          by_contra hc
          rw [List.getElem?_eq_none (by omega)] at h
          exact absurd h.2 (by simp)
        rw [if_neg hnext, if_neg hnext']
        rfl

theorem codeCandidate_eq_spec (s : CTracer) (qs : QubitState) (d : Duration)
    (hr : ∀ L Lay, qs.layer = some L → s.metricsByLayer[L]? = some Lay →
      InRange32 (qs.lastUsedTime + d) ∧ InRange32 (Lay.startTime + Lay.duration)) :
    codeCandidate s qs d = specCandidate s qs d := by
  unfold codeCandidate specCandidate
  cases hlay : qs.layer with
  | none => rfl
  | some L =>
    simp only
    cases hLay : s.metricsByLayer[L]? with
    | none => rfl
    | some Lay =>
      obtain ⟨h1, h2⟩ := hr L Lay hlay hLay
      simp only
      rw [wrap32_of_inRange _ h1, wrap32_of_inRange _ h2]

theorem findLayer_eq_spec (s : CTracer) (q : Qubit) (qs : QubitState) (d : Duration)
    (hq : s.qubits[q]? = some qs)
    (hL : ∀ L, qs.layer = some L → L < s.metricsByLayer.length)
    (hr : ∀ L Lay, qs.layer = some L → s.metricsByLayer[L]? = some Lay →
      InRange32 (qs.lastUsedTime + d) ∧ InRange32 (Lay.startTime + Lay.duration)) :
    s.FindLayerToInsertOperationInto q d = some (specFindLayer s qs d) := by
  rw [findLayer_eq_code s q qs d hq hL, codeCandidate_eq_spec s qs d hr]
  rfl

/-- C15, as stated, fails: in `longState` resource 0 was last used at time 2147483647 in
layer 0, which ends at 2147483647.  For duration 1 the three-step definition of the spec has
no candidate (2147483648 exceeds the end of the layer and 1 exceeds the preferred duration 0),
but the search returns layer 0, since the 32-bit sum of 2147483647 and 1 is -2147483648. -/
theorem find_layer_refines_spec_counterexample :
    (CTracer.init 0).run longCalls = some longState ∧
      longState.qubits[0]? =
        some { layer := some 0, lastUsedTime := 2147483647, pendingZeroOps := [] } ∧
      longState.FindLayerToInsertOperationInto 0 1 = some (some 0) ∧
      specBarrierAdjust longState (specCandidate longState
        { layer := some 0, lastUsedTime := 2147483647, pendingZeroOps := [] } 1) = INVALID :=
  ⟨rfl, rfl, rfl, rfl⟩

/-- C15, amended (the search equals the reference definition of the spec on 32-bit sums).
For every state, every allocated resource `q` whose layer index, if any, is an index of the
table, and every duration, `FindLayerToInsertOperationInto` returns the value of the
three-step definition of the spec with the two sums of the fit test taken in 32-bit
arithmetic: the candidate of steps 1 and 2, adjusted by the barrier in step 3.  If, for a
resource last used in layer `L`, the sums `lastUsedTime + d` and `L.startTime + L.duration`
are values of `int32_t`, the result is the value of the definition of the spec as written.
The method is a function of the state and returns no new state. -/
theorem find_layer_refines_spec (s : CTracer) (q : Qubit) (qs : QubitState) (d : Duration)
    (hq : s.qubits[q]? = some qs)
    (hL : ∀ L, qs.layer = some L → L < s.metricsByLayer.length) :
    s.FindLayerToInsertOperationInto q d =
        some (specBarrierAdjust s (codeCandidate s qs d)) ∧
      ((∀ L Lay, qs.layer = some L → s.metricsByLayer[L]? = some Lay →
          InRange32 (qs.lastUsedTime + d) ∧ InRange32 (Lay.startTime + Lay.duration)) →
        s.FindLayerToInsertOperationInto q d =
          some (specBarrierAdjust s (specCandidate s qs d))) :=
  ⟨findLayer_eq_code s q qs d hq hL, fun hr => findLayer_eq_spec s q qs d hq hL hr⟩

/-- Witness of the amended C15: resource 1 of `skipState` and duration 50; the sums 51 and 100
are values of `int32_t`, the candidate of the spec is layer 0 and the barrier raises it to
layer 2. -/
theorem find_layer_refines_spec_witness :
    specCandidate skipState { layer := some 0, lastUsedTime := 1, pendingZeroOps := [] } 50 =
        some 0 ∧
      skipState.FindLayerToInsertOperationInto 1 50 = some (some 2) := by
  have h := (find_layer_refines_spec skipState 1
    { layer := some 0, lastUsedTime := 1, pendingZeroOps := [] } 50 rfl
    (fun L hL => by cases hL; decide)).2
    (fun L Lay hL hLay => by
      cases hL
      have e : skipState.metricsByLayer[0]? =
          some { duration := 100, startTime := 0, operations := [(1, 1), (2, 1)] } := rfl
      rw [e] at hLay
      cases hLay
      exact ⟨⟨by decide, by decide⟩, ⟨by decide, by decide⟩⟩)
  exact ⟨rfl, h⟩

/-- C16, as stated, fails: after the first six calls of `overrunCalls` resource 1 was last
used in layer 0, and the search for duration 50 returns layer 2, which is neither 0 nor 1. -/
theorem same_or_next_counterexample :
    (CTracer.init 10).run (overrunCalls.take 6) = some skipState ∧
      ∃ qs, skipState.qubits[1]? = some qs ∧ qs.layer = some 0 ∧
        skipState.FindLayerToInsertOperationInto 1 50 = some (some 2) ∧
        (some 2 : LayerId) ≠ INVALID ∧ (some 2 : LayerId) ≠ some 0 ∧
        (some 2 : LayerId) ≠ some (0 + 1) :=
  ⟨rfl, _, rfl, rfl, rfl, by decide, by decide, by decide⟩

theorem codeFindLayer_cases (s : CTracer) (qs : QubitState) (d : Duration) (L : Nat)
    (hlay : qs.layer = some L) :
    specBarrierAdjust s (codeCandidate s qs d) = INVALID ∨
      specBarrierAdjust s (codeCandidate s qs d) = some L ∨
      specBarrierAdjust s (codeCandidate s qs d) = some (L + 1) ∨
      ∃ b, s.globalBarrier = some b ∧ L < b ∧
        specBarrierAdjust s (codeCandidate s qs d) = some (b + 1) := by
  have key : ∀ c, c = L ∨ c = L + 1 →
      specBarrierAdjust s (some c) = INVALID ∨ specBarrierAdjust s (some c) = some L ∨
        specBarrierAdjust s (some c) = some (L + 1) ∨
        ∃ b, s.globalBarrier = some b ∧ L < b ∧ specBarrierAdjust s (some c) = some (b + 1) := by
    intro c hc
    unfold specBarrierAdjust
    cases hb : s.globalBarrier with
    | none =>
      rcases hc with rfl | rfl
      · exact Or.inr (Or.inl rfl)
      · exact Or.inr (Or.inr (Or.inl rfl))
    | some b =>
      simp only
      by_cases hlast : b = s.metricsByLayer.length - 1
      · rw [if_pos hlast]; exact Or.inl rfl
      · rw [if_neg hlast]
        rcases Nat.lt_trichotomy b L with h | h | h
        · rcases hc with rfl | rfl
          · right; left
            rw [max_eq_left (by omega)]
          · right; right; left
            rw [max_eq_left (by omega)]
        · subst h
          right; right; left
          rcases hc with rfl | rfl
          · rw [max_eq_right (by omega)]
          · rw [max_eq_right (by omega)]
        · right; right; right
          refine ⟨b, rfl, h, ?_⟩
          rcases hc with rfl | rfl
          · rw [max_eq_right (by omega)]
          · rw [max_eq_right (by omega)]
  unfold codeCandidate
  rw [hlay]
  simp only
  cases s.metricsByLayer[L]? with
  | none => exact Or.inl rfl
  | some layerL =>
    simp only
    split
    · exact key L (Or.inl rfl)
    · split
      · exact key (L + 1) (Or.inr rfl)
      · exact Or.inl rfl

/-- C16, amended.  In every state reached from a fresh tracer, for every resource last used
in layer `L` and every duration, the search succeeds and returns `INVALID`, `L`, `L + 1`, or
`b + 1` for an active global barrier `b` with `L < b`. -/
theorem same_or_next_or_barrier (p : Int) (cs : List Call) (s : CTracer) (q : Qubit)
    (qs : QubitState) (L : Nat) (d : Duration) (hrun : (CTracer.init p).run cs = some s)
    (hq : s.qubits[q]? = some qs) (hlay : qs.layer = some L) :
    ∃ r, s.FindLayerToInsertOperationInto q d = some r ∧
      (r = INVALID ∨ r = some L ∨ r = some (L + 1) ∨
        ∃ b, s.globalBarrier = some b ∧ L < b ∧ r = some (b + 1)) := by
  have hwf := wf_run p cs s hrun
  exact ⟨_, findLayer_eq_code s q qs d hq (fun L' hL' => hwf.qubitLayer q qs L' hq hL'),
    codeFindLayer_cases s qs d L hlay⟩

/-- Witness of the amended C16: resource 1 of `skipState`, last used in layer 0 behind the
barrier 1, is sent to layer 2. -/
theorem same_or_next_or_barrier_witness :
    ∃ r, skipState.FindLayerToInsertOperationInto 1 50 = some r ∧
      (r = INVALID ∨ r = some 0 ∨ r = some (0 + 1) ∨
        ∃ b, skipState.globalBarrier = some b ∧ 0 < b ∧ r = some (b + 1)) :=
  same_or_next_or_barrier 10 (overrunCalls.take 6) skipState 1
    { layer := some 0, lastUsedTime := 1, pendingZeroOps := [] } 0 50 rfl rfl rfl

/-! ### Multi-resource operations of duration zero -/

theorem traceMulti_delegates (s : CTracer) (id : OpId) (d : Duration) (q : Qubit) :
    s.TraceMultiQubitOp id d [] [q] = s.TraceSingleQubitOp id d q := by
  unfold CTracer.TraceMultiQubitOp
  simp

/-- C18 (no deferral for multi-resource operations of duration zero).  `TraceMultiQubitOp`
with no control and exactly one target is `TraceSingleQubitOp` on that target.  In every state
reached from a fresh tracer, every other `TraceMultiQubitOp` call of duration 0 with valid
arguments succeeds and records the operation in a layer `M` (the count of its id in `M`
grows), no pending list grows, and every resource of both groups ends in the layer `M` with
an empty pending list. -/
theorem multi_zero_not_deferred (p : Int) (cs : List Call) (s : CTracer) (id : OpId)
    (ctl tgt : List Qubit) (hrun : (CTracer.init p).run cs = some s)
    (hnd : ¬ (ctl = [] ∧ tgt.length = 1)) (hne : tgt ≠ [])
    (hq : ∀ q, q ∈ ctl ++ tgt → q < s.qubits.length) :
    (∀ (s0 : CTracer) (id0 : OpId) (d0 : Duration) (q0 : Qubit),
        s0.TraceMultiQubitOp id0 d0 [] [q0] = s0.TraceSingleQubitOp id0 d0 q0) ∧
      ∃ s' M, s.TraceMultiQubitOp id 0 ctl tgt = some s' ∧
        layerCount s.metricsByLayer M id + 1 ≤ layerCount s'.metricsByLayer M id ∧
        (∀ (q : Qubit) (qs qs' : QubitState), s.qubits[q]? = some qs →
          s'.qubits[q]? = some qs' →
          qs'.pendingZeroOps.length ≤ qs.pendingZeroOps.length) ∧
        ∀ q, q ∈ ctl ++ tgt → ∃ qs', s'.qubits[q]? = some qs' ∧ qs'.layer = some M ∧
          qs'.pendingZeroOps = [] := by
  refine ⟨traceMulti_delegates, ?_⟩
  have hwf := wf_run p cs s hrun
  obtain ⟨s', hs'⟩ := traceMulti_total s hwf id 0 ctl tgt hne hq
  rcases traceMulti_cases s s' id 0 ctl tgt hs' with ⟨hctl, q, htgt, _⟩ | ⟨_, _, found, hf, hp⟩
  · exact absurd ⟨hctl, by rw [htgt]; rfl⟩ hnd
  · refine ⟨s', placedIndex s found, hs', ?_, ?_, ?_⟩
    · obtain ⟨ids, hcount⟩ := placed_layerCount_self _ _ _ _ _ _ hp
      rw [hcount id]
      simp only [List.count_cons_self]
      have : (0 : Int) ≤ (List.count id ids : Int) := Int.natCast_nonneg _
      push_cast
      omega
    · intro q qs qs' h1 h2
      by_cases hm : q ∈ ctl ++ tgt
      · obtain ⟨t, ht⟩ := hp.members q hm
        rw [ht] at h2
        simp only [Option.some.injEq] at h2
        subst h2
        exact Nat.zero_le _
      · rw [hp.others q hm, h1] at h2
        simp only [Option.some.injEq] at h2
        subst h2
        exact Nat.le_refl _
    · intro q hm
      obtain ⟨t, ht⟩ := hp.members q hm
      exact ⟨_, ht, rfl, rfl⟩

/-- Witness of C18: an operation of duration 0 with control 0 and targets 1 and 2, all
unused: a layer is created and the three resources are placed in it. -/
theorem multi_zero_not_deferred_witness :
    (CTracer.init 0).run [.allocate, .allocate, .allocate] = some unusedState ∧
      ∃ s' M, unusedState.TraceMultiQubitOp 7 0 [0] [1, 2] = some s' ∧
        layerCount unusedState.metricsByLayer M 7 + 1 ≤ layerCount s'.metricsByLayer M 7 ∧
        ∀ q, q ∈ [0] ++ [1, 2] → ∃ qs', s'.qubits[q]? = some qs' ∧ qs'.layer = some M ∧
          qs'.pendingZeroOps = [] := by
  obtain ⟨_, s', M, h1, h2, _, h3⟩ := multi_zero_not_deferred 0
    [.allocate, .allocate, .allocate] unusedState 7 [0] [1, 2] rfl (by decide) (by decide)
    (by decide)
  exact ⟨rfl, s', M, h1, h2, h3⟩

/-! ### Index safety -/

/-- C19 (index safety and totality).  In every state reached from a fresh tracer, the layer
index of every placed resource and the index of an active barrier are indices of the layer
table; hence the search succeeds on every allocated resource and returns `INVALID` or an index
of the table, and every call whose preconditions hold (handles returned by `AllocateQubit`,
target group not empty) completes: no assertion fails and no lookup is out of range. -/
theorem index_safety (p : Int) (cs : List Call) (s : CTracer)
    (hrun : (CTracer.init p).run cs = some s) :
    (∀ (q : Qubit) (qs : QubitState) (L : Nat), s.qubits[q]? = some qs → qs.layer = some L →
        L < s.metricsByLayer.length) ∧
      (∀ b, s.globalBarrier = some b → b < s.metricsByLayer.length) ∧
      (∀ (q : Qubit) (d : Duration), q < s.qubits.length →
        ∃ r, s.FindLayerToInsertOperationInto q d = some r ∧
          ∀ l, r = some l → l < s.metricsByLayer.length) ∧
      (∀ (l : Nat) (x : OpId), l < s.metricsByLayer.length →
        ∃ s', s.AddOperationToLayer x l = some s') ∧
      ∀ c : Call, c.Valid s → ∃ s', s.step c = some s' := by
  have hwf := wf_run p cs s hrun
  refine ⟨hwf.qubitLayer, hwf.barrierLayer, ?_, ?_, fun c hv => step_total s hwf c hv⟩
  · intro q d hq
    have hget : s.qubits[q]? = some s.qubits[q] := List.getElem?_eq_getElem hq
    obtain ⟨r, hr⟩ := findLayer_total s q d _ hget
      (fun L hL => hwf.qubitLayer q _ L hget hL)
    refine ⟨r, hr, ?_⟩
    intro l hl
    subst hl
    obtain ⟨_, _, _, _, h4⟩ := findLayer_some s q d l hr
    exact h4 hwf.barrierLayer
  · intro l x hl
    exact ⟨_, (addOperationToLayer_eq s _ x l).mpr ⟨hl, rfl⟩⟩

/-- Witness of C19: in `skipState` the search on resource 1 gives layer 2 of 3 layers, and a
single operation on resource 1 completes. -/
theorem index_safety_witness :
    (∃ r, skipState.FindLayerToInsertOperationInto 1 50 = some r ∧
        ∀ l, r = some l → l < 3) ∧
      ∃ s', skipState.step (.single 4 50 1) = some s' := by
  obtain ⟨_, _, h3, _, h5⟩ := index_safety 10 (overrunCalls.take 6) skipState rfl
  exact ⟨h3 1 50 (by decide), h5 (.single 4 50 1) (show 1 < 2 by decide)⟩

/-! ### The update loops as one loop -/

theorem updateLoop_append (l : Nat) (d : Duration) (a b : List Qubit) :
    ∀ s : CTracer, s.updateLoop l d (a ++ b) =
      match s.updateLoop l d a with
      | none => none
      | some s1 => s1.updateLoop l d b := by
  induction a with
  | nil => intro s; rfl
  | cons q rest ih =>
    intro s
    simp only [List.cons_append, CTracer.updateLoop]
    cases s.UpdateQubitState q l d with
    | none => rfl
    | some s1 => exact ih s1

/-- A call of `TraceMultiQubitOp` that is not delegated: one search over the targets and then
the controls, one placement, and one update loop over the controls and then the targets. -/
theorem traceMulti_form (s : CTracer) (id : OpId) (d : Duration) (ctl : List Qubit)
    (q0 : Qubit) (rest : List Qubit) (hnd : ¬ (ctl = [] ∧ rest = [])) :
    s.TraceMultiQubitOp id d ctl (q0 :: rest) =
      match s.FindLayerToInsertOperationInto q0 d with
      | none => none
      | some l0 =>
        match s.findLayerLoop d (rest ++ ctl) l0 with
        | none => none
        | some found =>
          match s.placeOperation id d found with
          | none => none
          | some (s2, layer) => s2.updateLoop layer d (ctl ++ q0 :: rest) := by
  unfold CTracer.TraceMultiQubitOp
  simp only
  rw [if_neg hnd]
  cases s.FindLayerToInsertOperationInto q0 d with
  | none => rfl
  | some l0 =>
    simp only
    rw [findLayerLoop_append]
    cases s.findLayerLoop d rest l0 with
    | none => rfl
    | some l1 =>
      simp only
      cases s.findLayerLoop d ctl l1 with
      | none => rfl
      | some found =>
        simp only
        cases s.placeOperation id d found with
        | none => rfl
        | some r =>
          obtain ⟨s2, layer⟩ := r
          simp only
          rw [updateLoop_append]

/-! ### The time of a committed resource -/

theorem committed_layer_start (l : Nat) (qs : List Qubit) (s s' : CTracer)
    (h : Committed l qs s s') (L : Layer) (hL : s.metricsByLayer[l]? = some L) :
    ∃ L', s'.metricsByLayer[l]? = some L' ∧ L'.startTime = L.startTime ∧
      L'.duration = L.duration := by
  obtain ⟨ids, e, _⟩ := h.layers
  refine ⟨{ L with operations := ids.foldl Layer.recordOp L.operations }, ?_, rfl, rfl⟩
  rw [e]
  exact getElem?_recordMany_self _ _ _ L hL

theorem placeOperation_layer (s s2 : CTracer) (id : OpId) (d : Duration) (found : LayerId)
    (l : Nat) (h : s.placeOperation id d found = some (s2, l)) :
    l = placedIndex s found ∧ s2.qubits = s.qubits ∧
      ∃ L0 L2, (baseLayers s d found)[l]? = some L0 ∧ s2.metricsByLayer[l]? = some L2 ∧
        L2.startTime = L0.startTime ∧ L2.duration = L0.duration := by
  obtain ⟨rfl, hl, rfl⟩ := (placeOperation_eq s s2 id d found l).mp h
  have hlt : placedIndex s found < (baseLayers s d found).length := by
    cases found with
    | none => simp [placedIndex, baseLayers]
    | some l0 => exact hl l0 rfl
  obtain ⟨L0, hL0⟩ : ∃ L0, (baseLayers s d found)[placedIndex s found]? = some L0 :=
    ⟨_, List.getElem?_eq_getElem hlt⟩
  exact ⟨rfl, rfl, L0, _, hL0, getElem?_recordMany_self _ _ _ L0 hL0, rfl, rfl⟩

theorem commitQubit_comm (start : Time) (l : Nat) (d : Duration) (qsl : List QubitState)
    (a b : Qubit) :
    commitQubit start l d (commitQubit start l d qsl a) b =
      commitQubit start l d (commitQubit start l d qsl b) a := by
  by_cases hab : a = b
  · subst hab; rfl
  · have hba : b ≠ a := fun e => hab e.symm
    unfold commitQubit
    cases ha : qsl[a]? with
    | none =>
      simp only
      cases hb : qsl[b]? with
      | none => simp only [ha]
      | some sb =>
        simp only
        rw [List.getElem?_set_ne hba, ha]
    | some sa =>
      simp only
      rw [List.getElem?_set_ne hab]
      cases hb : qsl[b]? with
      | none => simp only [ha]
      | some sb =>
        simp only
        rw [List.getElem?_set_ne hba, ha]
        simp only
        exact List.set_comm _ _ _ hab

theorem updateLoop_qubits (l : Nat) (d : Duration) (qs : List Qubit) :
    ∀ (s s' : CTracer) (L : Layer), s.updateLoop l d qs = some s' →
      s.metricsByLayer[l]? = some L →
      s'.qubits = qs.foldl (commitQubit L.startTime l d) s.qubits := by
  induction qs with
  | nil =>
    intro s s' L h _
    simp only [CTracer.updateLoop, Option.some.injEq] at h
    subst h
    rfl
  | cons a rest ih =>
    intro s s' L h hL
    unfold CTracer.updateLoop at h
    cases h1 : s.UpdateQubitState a l d with
    | none => rw [h1] at h; cases h
    | some s1 =>
      rw [h1] at h
      obtain ⟨qsa, La, hqa, hLa, e⟩ := (updateQubitState_eq s s1 a l d).mp h1
      rw [hL] at hLa
      simp only [Option.some.injEq] at hLa
      subst hLa
      obtain ⟨L1, hL1, hst, _⟩ :=
        committed_layer_start l [a] s s1 (committed_update s s1 a l d h1) L hL
      rw [ih s1 s' L1 h hL1, hst, List.foldl_cons]
      congr 1
      rw [e]
      simp only [commitQubit, hqa]

theorem pendingCount_set (x : OpId) (qsl : List QubitState) (q : Qubit) (st new : QubitState)
    (hq : qsl[q]? = some st) :
    pendingCount x (qsl.set q new) =
      pendingCount x qsl - st.pendingZeroOps.count x + new.pendingZeroOps.count x := by
  unfold pendingCount
  rw [sum_map_set _ qsl q new st hq]

theorem updateLoop_flushed (l : Nat) (d : Duration) (qs : List Qubit) :
    ∀ s s' : CTracer, s.updateLoop l d qs = some s' →
      ∃ ids, s'.metricsByLayer = recordMany s.metricsByLayer l ids ∧
        ∀ x, (ids.count x : Int) = pendingCount x s.qubits - pendingCount x s'.qubits := by
  induction qs with
  | nil =>
    intro s s' h
    simp only [CTracer.updateLoop, Option.some.injEq] at h
    subst h
    exact ⟨[], (recordMany_nil _ _).symm, fun x => by simp⟩
  | cons a rest ih =>
    intro s s' h
    unfold CTracer.updateLoop at h
    cases h1 : s.UpdateQubitState a l d with
    | none => rw [h1] at h; cases h
    | some s1 =>
      rw [h1] at h
      obtain ⟨qsa, La, hqa, hLa, e⟩ := (updateQubitState_eq s s1 a l d).mp h1
      obtain ⟨ids, hids, hcount⟩ := ih s1 s' h
      refine ⟨qsa.pendingZeroOps ++ ids, ?_, ?_⟩
      · rw [hids, e]
        simp only
        rw [recordMany_append]
      · intro x
        have h2 := hcount x
        rw [e] at h2
        simp only at h2
        rw [pendingCount_set x s.qubits a qsa _ hqa] at h2
        simp only [List.count_nil, Nat.cast_zero, add_zero] at h2
        rw [List.count_append]
        push_cast
        omega

theorem layerCount_recordMany (ls : List Layer) (l : Nat) (ids : List OpId) (i : Nat)
    (x : OpId) :
    layerCount (recordMany ls l ids) i x =
      layerCount ls i x + (if i = l ∧ l < ls.length then (ids.count x : Int) else 0) := by
  unfold layerCount
  by_cases hi : i = l
  · subst hi
    cases hL : ls[i]? with
    | none =>
      have hlen : ls.length ≤ i := List.getElem?_eq_none_iff.mp hL
      rw [recordMany_of_none _ _ _ hL, hL]
      simp only
      rw [if_neg (by omega)]
      simp
    | some L =>
      have hlt := getElem?_lt _ _ _ hL
      rw [getElem?_recordMany_self _ _ _ L hL]
      simp only
      rw [countOf_foldl_recordOp]
      simp [hlt]
  · rw [getElem?_recordMany_ne _ _ _ _ hi, if_neg (fun h => hi h.1)]
    simp

theorem frame_recordMany (ls : List Layer) (l : Nat) (ids : List OpId) :
    (recordMany ls l ids).map (fun L => (L.duration, L.startTime, L.name)) =
      ls.map (fun L => (L.duration, L.startTime, L.name)) := by
  apply List.ext_getElem?
  intro i
  rw [List.getElem?_map, List.getElem?_map]
  by_cases hi : i = l
  · subst hi
    cases hL : ls[i]? with
    | none => rw [recordMany_of_none _ _ _ hL, hL]
    | some L => rw [getElem?_recordMany_self _ _ _ L hL]; rfl
  · rw [getElem?_recordMany_ne _ _ _ _ hi]

/-- The update loop over a permutation of the resources gives the same observable state. -/
theorem updateLoop_perm (l : Nat) (d : Duration) (a b : List Qubit) (hab : a.Perm b)
    (s sa sb : CTracer) (ha : s.updateLoop l d a = some sa)
    (hb : s.updateLoop l d b = some sb) (hl : l < s.metricsByLayer.length) :
    SameObservable sa sb := by
  obtain ⟨L, hL⟩ : ∃ L, s.metricsByLayer[l]? = some L := ⟨_, List.getElem?_eq_getElem hl⟩
  have hqa := updateLoop_qubits l d a s sa L ha hL
  have hqb := updateLoop_qubits l d b s sb L hb hL
  have hq : sa.qubits = sb.qubits := by
    rw [hqa, hqb]
    exact List.Perm.foldl_eq' hab
      (fun x _ y _ z => commitQubit_comm L.startTime l d z x y) s.qubits
  have hca := updateLoop_committed l d a s sa ha
  have hcb := updateLoop_committed l d b s sb hb
  obtain ⟨idsa, hla, hcounta⟩ := updateLoop_flushed l d a s sa ha
  obtain ⟨idsb, hlb, hcountb⟩ := updateLoop_flushed l d b s sb hb
  refine ⟨hq, hca.barrier.trans hcb.barrier.symm, hca.pref.trans hcb.pref.symm, ?_, ?_⟩
  · rw [hla, hlb, frame_recordMany, frame_recordMany]
  · intro i x
    rw [hla, hlb, layerCount_recordMany, layerCount_recordMany]
    have h1 := hcounta x
    have h2 := hcountb x
    rw [hq] at h1
    have : (idsa.count x : Int) = idsb.count x := by omega
    rw [this]

theorem specTraceMultiOp_form (s : CTracer) (id : OpId) (d : Duration) (ctl : List Qubit)
    (q0 : Qubit) (rest : List Qubit) (hnd : ¬ (ctl = [] ∧ rest = [])) :
    specTraceMultiOp s id d ctl (q0 :: rest) =
      match s.FindLayerToInsertOperationInto q0 d with
      | none => none
      | some l0 =>
        match s.findLayerLoop d (rest ++ ctl) l0 with
        | none => none
        | some found =>
          match s.placeOperation id d found with
          | none => none
          | some (s2, layer) => s2.updateLoop layer d ((q0 :: rest) ++ ctl) := by
  unfold specTraceMultiOp
  simp only
  rw [if_neg hnd]

/-- C17 (commit order of a multi-resource operation).  In every state reached from a fresh
tracer, a `TraceMultiQubitOp` call with valid arguments that is not delegated succeeds, the
definition of the spec (which commits the targets first and then the controls) succeeds too,
and the two final states agree on every resource state (layer, `lastUsedTime`, pending list),
on the barrier and the preferred duration, on the duration, start time and name of every layer
and on the count of every operation id in every layer. -/
theorem commit_order (p : Int) (cs : List Call) (s : CTracer) (id : OpId) (d : Duration)
    (ctl tgt : List Qubit) (hrun : (CTracer.init p).run cs = some s)
    (hnd : ¬ (ctl = [] ∧ tgt.length = 1)) (hne : tgt ≠ [])
    (hq : ∀ q, q ∈ ctl ++ tgt → q < s.qubits.length) :
    ∃ s' t', s.TraceMultiQubitOp id d ctl tgt = some s' ∧
      specTraceMultiOp s id d ctl tgt = some t' ∧
      s'.qubits = t'.qubits ∧ s'.globalBarrier = t'.globalBarrier ∧
      s'.preferredLayerDuration = t'.preferredLayerDuration ∧
      s'.metricsByLayer.map (fun L => (L.duration, L.startTime, L.name)) =
        t'.metricsByLayer.map (fun L => (L.duration, L.startTime, L.name)) ∧
      ∀ i x, layerCount s'.metricsByLayer i x = layerCount t'.metricsByLayer i x := by
  have hwf := wf_run p cs s hrun
  obtain ⟨s', hs'⟩ := traceMulti_total s hwf id d ctl tgt hne hq
  cases tgt with
  | nil => exact absurd rfl hne
  | cons q0 rest =>
    have hnd' : ¬ (ctl = [] ∧ rest = []) := by
      intro hx
      apply hnd
      exact ⟨hx.1, by rw [hx.2]; rfl⟩
    have hform := traceMulti_form s id d ctl q0 rest hnd'
    rw [hform] at hs'
    rw [specTraceMultiOp_form s id d ctl q0 rest hnd']
    cases h0 : s.FindLayerToInsertOperationInto q0 d with
    | none => rw [h0] at hs'; cases hs'
    | some l0 =>
      rw [h0] at hs'
      simp only at hs'
      cases h1 : s.findLayerLoop d (rest ++ ctl) l0 with
      | none => rw [h1] at hs'; cases hs'
      | some found =>
        rw [h1] at hs'
        simp only at hs'
        cases hpl : s.placeOperation id d found with
        | none => rw [hpl] at hs'; cases hs'
        | some r =>
          obtain ⟨s2, l⟩ := r
          rw [hpl] at hs'
          simp only at hs'
          obtain ⟨_, hq2, _, L2, _, hL2, _, _⟩ := placeOperation_layer s s2 id d found l hpl
          have hl : l < s2.metricsByLayer.length := getElem?_lt _ _ _ hL2
          obtain ⟨t', ht'⟩ := updateLoop_total l d ((q0 :: rest) ++ ctl) s2
            (fun q hm => by
              rw [hq2]
              apply hq
              rcases List.mem_append.mp hm with h | h
              · exact List.mem_append_right _ h
              · exact List.mem_append_left _ h) hl
          refine ⟨s', t', hform.trans ?_, ?_, ?_⟩
          · simp only [h0, h1, hpl]
            exact hs'
          · simp only [h1, hpl]
            exact ht'
          · exact updateLoop_perm l d _ _ List.perm_append_comm s2 s' t' hs' ht' hl

/-- Witness of C17: controls `[0]` and targets `[1]` with pending operations 7 and 8; the
code flushes 7 before 8, the spec 8 before 7, and the counts agree. -/
theorem commit_order_witness :
    (CTracer.init 0).run [.allocate, .allocate, .single 7 0 0, .single 8 0 1] =
        some orderState ∧
      ∃ s' t', orderState.TraceMultiQubitOp 5 3 [0] [1] = some s' ∧
        specTraceMultiOp orderState 5 3 [0] [1] = some t' ∧
        s'.qubits = t'.qubits ∧
        ∀ i x, layerCount s'.metricsByLayer i x = layerCount t'.metricsByLayer i x := by
  obtain ⟨s', t', h1, h2, h3, _, _, _, h4⟩ := commit_order 0
    [.allocate, .allocate, .single 7 0 0, .single 8 0 1] orderState 5 3 [0] [1] rfl
    (by decide) (by decide) (by decide)
  exact ⟨rfl, s', t', h1, h2, h3, h4⟩

/-! ### The frame of a trace call -/

/-- C21 (frame of trace calls).  For every state and every `TraceSingleQubitOp` or
`TraceMultiQubitOp` call: on a well-formed state a call with valid arguments completes, and
whenever the call completes, the state (layer, `lastUsedTime`, pending list) of every resource
that is not an argument of the call is unchanged, and so are the number of allocated
resources, the global barrier and the preferred layer duration. -/
theorem trace_frame (s : CTracer) (c : Call) (hc : c.isTrace = true) :
    (WF s → c.Valid s → ∃ s', s.step c = some s') ∧
      ∀ s', s.step c = some s' →
        (∀ q : Qubit, q ∉ c.resources → s'.qubits[q]? = s.qubits[q]?) ∧
        s'.qubits.length = s.qubits.length ∧
        s'.globalBarrier = s.globalBarrier ∧
        s'.preferredLayerDuration = s.preferredLayerDuration := by
  refine ⟨fun hwf hv => step_total s hwf c hv, ?_⟩
  intro s' h
  rcases trace_cases s s' c hc h with ⟨_, _, q, qs, hres, hq, _, rfl⟩ | ⟨_, found, _, hp⟩
  · refine ⟨?_, by simp, rfl, rfl⟩
    intro q' hq'
    rw [hres, List.mem_singleton] at hq'
    simp only
    rw [List.getElem?_set_ne (fun e => hq' e.symm)]
  · exact ⟨hp.others, hp.qlen, hp.barrier, hp.pref⟩

/-- Witness of C21: the operation with control 0 and targets 1 and 2 on `multiState` is
placed, and the operation `(9, 0, 0)` on `unusedState` is deferred; resource 1 of `unusedState`
is not an argument and keeps its state. -/
theorem trace_frame_witness :
    (∃ s', multiState.step (.multi 5 5 [0] [1, 2]) = some s' ∧
        s'.qubits.length = 3 ∧ s'.globalBarrier = INVALID ∧
        s'.preferredLayerDuration = 10) ∧
      ∃ s', unusedState.step (.single 9 0 0) = some s' ∧
        s'.qubits[1]? = some { layer := INVALID, lastUsedTime := 0, pendingZeroOps := [] } ∧
        s'.qubits.length = 3 := by
  have h1 := trace_frame multiState (.multi 5 5 [0] [1, 2]) rfl
  have h2 := trace_frame unusedState (.single 9 0 0) rfl
  obtain ⟨s1, hs1⟩ := h1.1 (wf_run 10 multiCalls multiState rfl) ⟨by decide, by decide⟩
  obtain ⟨s2, hs2⟩ := h2.1 (wf_run 0 [.allocate, .allocate, .allocate] unusedState rfl)
    (show 0 < 3 by decide)
  obtain ⟨_, a2, a3, a4⟩ := h1.2 s1 hs1
  obtain ⟨b1, b2, _, _⟩ := h2.2 s2 hs2
  refine ⟨⟨s1, hs1, a2, a3, a4⟩, s2, hs2, ?_, b2⟩
  rw [b1 1 (by decide)]
  rfl

end Tracer
